import Mathlib

/-
Verification development for the OLLYSPA v2.5 core
(src/assets/js/ollyspa.core.js): a shallow embedding of the reactive
store, the expression evaluator, the interpolation engine, the four
directive handlers (o-if, o-for, o-model, o-click) and the
directive orchestrator, together with theorems settling the spec claims.

Modelling conventions:
- JavaScript values are the inductive `Value`; machine floats do not occur
  in any verified scenario, so numbers are modelled as integers.
- The DOM subtree handed to `processDirectives` is the inductive `Node`.
  Node identity (JS object identity of DOM nodes, used by the render
  closures and event listeners) is modelled by a numeric id carried on
  every node; cloning allocates fresh ids from a counter.
- The source evaluates expression strings with `new Function` inside
  nested `with(state)/with(data)` blocks.  The embedding tokenizes and
  parses a restricted expression grammar (literals, identifiers, dotted
  paths, binary plus, assignment) and evaluates it against the same
  scope order: data fields, then state fields, then the function
  parameters, then (for writes) the sloppy-mode global object.  The
  spec itself (section 9) sanctions a restricted method-free grammar.
  Expressions outside the grammar evaluate to a SyntaxError, which the
  source catches exactly like any other evaluation failure.
  Assignment in read position (legal JS, unused by every template in
  the repository) is treated as an evaluation failure so that reads
  stay side-effect free.
- `querySelectorAll` snapshots followed by in-place mutation are
  modelled by structural recursion over the tree; this is observably
  equivalent because processing a directive only depends on its own
  attribute and the store, and mutations of subtrees already detached
  from the document are invisible.
-/

namespace Ollyspa

/-- JavaScript runtime values as they occur in the core: `undefined`,
`null`, booleans, numbers (integers suffice for everything verified
here), strings, arrays and plain objects (ordered own-property lists). -/
inductive Value where
  | undef
  | vnull
  | bool (b : Bool)
  | num (n : Int)
  | str (s : String)
  | list (xs : List Value)
  | obj (fields : List (String × Value))

/-- JavaScript truthiness: `undefined`, `null`, `false`, `0` and the
empty string are falsy; every array and object (even empty) is truthy. -/
def jsTruthy : Value → Bool
  | .undef => false
  | .vnull => false
  | .bool b => b
  | .num n => n != 0
  | .str s => !s.isEmpty
  | .list _ => true
  | .obj _ => true

/-- Loose equality against null (`cur == null` in `bindModel`): true
exactly for `null` and `undefined`. -/
def looseNull : Value → Bool
  | .undef => true
  | .vnull => true
  | _ => false

mutual
/-- JavaScript `String(v)` coercion. Arrays stringify as their elements
joined with commas (with `null`/`undefined` elements as empty), plain
objects as `[object Object]`. -/
def jsString : Value → String
  | .undef => "undefined"
  | .vnull => "null"
  | .bool b => if b then "true" else "false"
  | .num n => toString n
  | .str s => s
  | .list xs => jsStringElems xs
  | .obj _ => "[object Object]"
/-- Array element stringification for `Array.prototype.toString`. -/
def jsStringElems : List Value → String
  | [] => ""
  | x :: xs =>
    let hd := match x with
      | .undef => ""
      | .vnull => ""
      | v => jsString v
    match xs with
    | [] => hd
    | _ :: _ => hd ++ "," ++ jsStringElems xs
end

/-- Association-list lookup (first binding wins), used for JS object
own-property access and for element attribute lists. -/
def alGet {α : Type} : List (String × α) → String → Option α
  | [], _ => none
  | (k, v) :: rest, key => if k = key then some v else alGet rest key

/-- Association-list membership (the `in`-operator test performed by a
`with` scope object). -/
def alHas {α : Type} (l : List (String × α)) (key : String) : Bool :=
  (alGet l key).isSome

/-- Association-list update: overwrite the first binding in place, or
append a new binding at the end (JS property creation order). -/
def alSet {α : Type} : List (String × α) → String → α → List (String × α)
  | [], key, v => [(key, v)]
  | (k, w) :: rest, key, v =>
    if k = key then (k, v) :: rest else (k, w) :: alSet rest key v

/-- Association-list removal of every binding of a key
(`removeAttribute`). -/
def alRemove {α : Type} : List (String × α) → String → List (String × α)
  | [], _ => []
  | (k, w) :: rest, key =>
    if k = key then alRemove rest key else (k, w) :: alRemove rest key

/-- Character class of the regexp `\s` (the subset that occurs in
markup: space, tab, newline, carriage return). -/
def isWsChar (c : Char) : Bool :=
  c = ' ' || c = '\t' || c = '\n' || c = '\r'

/-- Character class of the regexp `\w`: ASCII letters, digits and
underscore. -/
def isRegexWordChar (c : Char) : Bool :=
  c.isAlpha || c.isDigit || c = '_'

/-- Characters allowed in the identifiers of the embedded expression
grammar (JS identifier characters used by the templates). -/
def isIdentChar (c : Char) : Bool :=
  c.isAlpha || c.isDigit || c = '_' || c = '$'

/-- Tokens of the embedded expression grammar. -/
inductive Tok where
  | ident (s : String)
  | intLit (n : Nat)
  | strLit (s : String)
  | plus
  | dot
  | eqSign
  | lparen
  | rparen

/-- Tokenizer for expression strings (fuel-bounded scan; fuel
`length + 1` always suffices since every step consumes a character).
An unknown character is a SyntaxError, reported as `none`. -/
def tokenize : Nat → List Char → Option (List Tok)
  | 0, _ => none
  | _ + 1, [] => some []
  | fuel + 1, c :: cs =>
    if isWsChar c then tokenize fuel cs
    else if c.isDigit then
      let digits := c :: cs.takeWhile Char.isDigit
      let n := digits.foldl (fun acc d => acc * 10 + (d.toNat - '0'.toNat)) 0
      match tokenize fuel (cs.dropWhile Char.isDigit) with
      | some toks => some (.intLit n :: toks)
      | none => none
    else if c.isAlpha || c = '_' || c = '$' then
      let name := c :: cs.takeWhile isIdentChar
      match tokenize fuel (cs.dropWhile isIdentChar) with
      | some toks => some (.ident (String.mk name) :: toks)
      | none => none
    else if c = '\'' then
      let body := cs.takeWhile (fun d => d ≠ '\'')
      match cs.dropWhile (fun d => d ≠ '\'') with
      | '\'' :: rest =>
        match tokenize fuel rest with
        | some toks => some (.strLit (String.mk body) :: toks)
        | none => none
      | _ => none
    else if c = '+' then (tokenize fuel cs).map (.plus :: ·)
    else if c = '.' then (tokenize fuel cs).map (.dot :: ·)
    else if c = '=' then (tokenize fuel cs).map (.eqSign :: ·)
    else if c = '(' then (tokenize fuel cs).map (.lparen :: ·)
    else if c = ')' then (tokenize fuel cs).map (.rparen :: ·)
    else none

/-- Abstract syntax of the embedded expression grammar. -/
inductive Expr where
  | lit (v : Value)
  | evar (s : String)
  | field (e : Expr) (name : String)
  | add (a b : Expr)
  | assign (tgt rhs : Expr)

/-- Valid assignment targets: an identifier or a dotted path. -/
def isPathExpr : Expr → Bool
  | .evar _ => true
  | .field e _ => isPathExpr e
  | _ => false

mutual
/-- Assignment level of the expression parser (right-associative `=`
with a path on the left, as produced by the o-model and o-click
handlers). -/
def parseAsgn : Nat → List Tok → Option (Expr × List Tok)
  | 0, _ => none
  | fuel + 1, toks =>
    match parseAdd fuel toks with
    | some (lhs, .eqSign :: rest) =>
      if isPathExpr lhs then
        match parseAsgn fuel rest with
        | some (rhs, rest') => some (.assign lhs rhs, rest')
        | none => none
      else none
    | some (lhs, rest) => some (lhs, rest)
    | none => none
/-- Additive level: left-associative binary plus. -/
def parseAdd : Nat → List Tok → Option (Expr × List Tok)
  | 0, _ => none
  | fuel + 1, toks =>
    match parsePost fuel toks with
    | some (e, rest) => parseAddLoop fuel e rest
    | none => none
/-- Loop folding further `+ operand` onto an already-parsed operand. -/
def parseAddLoop : Nat → Expr → List Tok → Option (Expr × List Tok)
  | 0, _, _ => none
  | fuel + 1, acc, .plus :: rest =>
    match parsePost fuel rest with
    | some (e, rest') => parseAddLoop fuel (.add acc e) rest'
    | none => none
  | _ + 1, acc, rest => some (acc, rest)
/-- Postfix level: dotted member access chains. -/
def parsePost : Nat → List Tok → Option (Expr × List Tok)
  | 0, _ => none
  | fuel + 1, toks =>
    match parsePrim fuel toks with
    | some (e, rest) => parsePostLoop fuel e rest
    | none => none
/-- Loop folding further `.name` accesses onto a parsed primary. -/
def parsePostLoop : Nat → Expr → List Tok → Option (Expr × List Tok)
  | 0, _, _ => none
  | fuel + 1, acc, .dot :: .ident n :: rest => parsePostLoop fuel (.field acc n) rest
  | _ + 1, acc, rest => some (acc, rest)
/-- Primary level: literals, identifiers, parenthesised expressions.
The keywords `null`, `true`, `false`, `undefined` are literal values. -/
def parsePrim : Nat → List Tok → Option (Expr × List Tok)
  | 0, _ => none
  | _ + 1, .intLit n :: rest => some (.lit (.num (Int.ofNat n)), rest)
  | _ + 1, .strLit s :: rest => some (.lit (.str s), rest)
  | _ + 1, .ident s :: rest =>
    if s = "null" then some (.lit .vnull, rest)
    else if s = "true" then some (.lit (.bool true), rest)
    else if s = "false" then some (.lit (.bool false), rest)
    else if s = "undefined" then some (.lit .undef, rest)
    else some (.evar s, rest)
  | fuel + 1, .lparen :: rest =>
    match parseAsgn fuel rest with
    | some (e, .rparen :: rest') => some (e, rest')
    | _ => none
  | _ + 1, _ => none
end

/-- Parse a whole expression string; leftover tokens are a SyntaxError. -/
def parseExprString (s : String) : Option Expr :=
  match tokenize (s.length + 1) s.toList with
  | none => none
  | some toks =>
    match parseAsgn (toks.length * 8 + 16) toks with
    | some (e, []) => some e
    | _ => none

/-- What a `new Function` parameter denotes during evaluation: the
`state` parameter is the reactive proxy, the `data` parameter is the
live `state.data` object, and other parameters carry plain values
(the iteration item, the event object, the o-model `val`). -/
inductive PVal where
  | refState
  | refData
  | pval (v : Value)

/-- Read-only evaluation context: the store's own fields, the
sloppy-mode global bindings created by evaluated assignments, and the
`new Function` parameter list of the current call site. -/
structure RCtx where
  props : List (String × Value)
  globals : List (String × Value)
  params : List (String × PVal)

/-- Own properties of `state.data` (the innermost `with` scope).  The
source initialises `data` to an object and only ever replaces it with
parsed JSON, so a non-object `data` never occurs; it is modelled as an
empty scope. -/
def dataFields (props : List (String × Value)) : List (String × Value) :=
  match alGet props "data" with
  | some (.obj fs) => fs
  | _ => []

/-- Value denoted by a function parameter when read. -/
def paramRead (ctx : RCtx) : PVal → Value
  | .refState => .obj ctx.props
  | .refData => .obj (dataFields ctx.props)
  | .pval v => v

/-- Identifier resolution along the scope chain of
`with(state) with(data) body` inside `new Function(params…)`:
`data` own properties shadow `state` own properties shadow the
function parameters shadow the globals; anything else is a
ReferenceError. -/
def lookupVar (ctx : RCtx) (name : String) : Except Unit Value :=
  match alGet (dataFields ctx.props) name with
  | some v => .ok v
  | none =>
    match alGet ctx.props name with
    | some v => .ok v
    | none =>
      match alGet ctx.params name with
      | some pv => .ok (paramRead ctx pv)
      | none =>
        match alGet ctx.globals name with
        | some v => .ok v
        | none => .error ()

/-- Property read `v.name`: a TypeError on `undefined`/`null`, the
looked-up own property (or `undefined`) on objects, `undefined` on
other primitives. -/
def getField : Value → String → Except Unit Value
  | .obj fs, name => .ok ((alGet fs name).getD .undef)
  | .undef, _ => .error ()
  | .vnull, _ => .error ()
  | _, _ => .ok Value.undef

/-- ToPrimitive for the `+` operator: arrays and objects convert via
their string form, other values are already primitive. -/
def primOf : Value → Value
  | .list xs => .str (jsStringElems xs)
  | .obj _ => .str "[object Object]"
  | v => v

/-- Numeric coercion of a primitive for `+`; `undefined` (NaN) and
strings in numeric position fall outside the modelled fragment and
are reported as evaluation failures (no verified expression hits
these combinations). -/
def toNumber : Value → Option Int
  | .num n => some n
  | .vnull => some 0
  | .bool b => some (if b then 1 else 0)
  | _ => none

/-- JavaScript binary `+`: string concatenation when either primitive
operand is a string, numeric addition otherwise. -/
def jsAdd (a b : Value) : Except Unit Value :=
  let pa := primOf a
  let pb := primOf b
  match pa, pb with
  | .str _, _ => .ok (.str (jsString pa ++ jsString pb))
  | _, .str _ => .ok (.str (jsString pa ++ jsString pb))
  | _, _ =>
    match toNumber pa, toNumber pb with
    | some x, some y => .ok (.num (x + y))
    | _, _ => .error ()

/-- Read evaluation of an expression.  Assignment in read position is
treated as an evaluation failure (see the header comment). -/
def evalR : Expr → RCtx → Except Unit Value
  | .lit v, _ => .ok v
  | .evar s, ctx => lookupVar ctx s
  | .field e n, ctx => do
    let v ← evalR e ctx
    getField v n
  | .add a b, ctx => do
    let x ← evalR a ctx
    let y ← evalR b ctx
    jsAdd x y
  | .assign _ _, _ => .error ()

/-- Raw evaluation of an expression string: tokenizer or parser failure
is a SyntaxError, evaluation failure a runtime error; each surfaces as
`Except.error`. -/
def evalRawString (s : String) (ctx : RCtx) : Except Unit Value :=
  match parseExprString s with
  | none => .error ()
  | some e => evalR e ctx

/-- The source's `evalInContext`: evaluate the expression string with
state and data in scope, catch every failure and return `undefined`. -/
def evalInContext (s : String) (ctx : RCtx) : Value :=
  match evalRawString s ctx with
  | .ok v => v
  | .error _ => Value.undef

/-- Warnings logged by `evalInContext` (`console.warn` on the caught
exception): one entry exactly when evaluation fails. -/
def evalWarnings (s : String) (ctx : RCtx) : List String :=
  match evalRawString s ctx with
  | .ok _ => []
  | .error _ => ["Expression error: " ++ s]

/-- Event listeners attached by `bindModel` (input) and `bindClick`
(click), recorded with the expression string their closure captured. -/
inductive Listener where
  | input (modelExpr : String)
  | click (clickExpr : String)

/-- A DOM node of the processed subtree: a text node or an element
with tag name (upper-case, as `tagName` reports), attribute list,
`value` property (meaningful for form controls), attached event
listeners, and children.  The numeric id models JS object identity:
render callbacks and event dispatch refer to nodes by id. -/
inductive Node where
  | text (id : Nat) (value : String)
  | elem (id : Nat) (tag : String) (attrs : List (String × String))
      (val : String) (listeners : List Listener) (children : List Node)

/-- Identity of a node. -/
def nodeId : Node → Nat
  | .text i _ => i
  | .elem i _ _ _ _ _ => i

/-- `getAttribute` (text nodes have none). -/
def getAttr (name : String) : Node → Option String
  | .text _ _ => none
  | .elem _ _ attrs _ _ _ => alGet attrs name

/-- Children of a node. -/
def nodeChildren : Node → List Node
  | .text _ _ => []
  | .elem _ _ _ _ _ ch => ch

/-- The `value` property of a node (empty for text nodes). -/
def nodeVal : Node → String
  | .text _ _ => ""
  | .elem _ _ _ v _ _ => v

/-- Attached listeners of a node. -/
def nodeListeners : Node → List Listener
  | .text _ _ => []
  | .elem _ _ _ _ ls _ => ls

/-- Does the string contain the interpolation opening marker
(`text.includes` guard of `interpolate`)? -/
def containsOpen : List Char → Bool
  | '\x7b' :: '\x7b' :: _ => true
  | _ :: rest => containsOpen rest
  | [] => false

/-- Split a character list at the first closing marker pair, returning
the characters before it and the characters after it. -/
def splitClose : List Char → Option (List Char × List Char)
  | '\x7d' :: '\x7d' :: rest => some ([], rest)
  | c :: rest =>
    match splitClose rest with
    | some (b, a) => some (c :: b, a)
    | none => none
  | [] => none

/-- Drop trailing whitespace (the trailing `\s*` of the interpolation
regexp, which the lazy capture group yields to). -/
def rtrimWs (cs : List Char) : List Char :=
  (cs.reverse.dropWhile isWsChar).reverse

/-- Drop leading and trailing whitespace (the two `\s*` groups around
the captured expression). -/
def trimWs (cs : List Char) : List Char :=
  rtrimWs (cs.dropWhile isWsChar)

/-- The replacement of one interpolation placeholder:
`val === undefined ? '' : val`, string-coerced by `replace`. -/
def placeholderString : Value → String
  | .undef => ""
  | v => jsString v

/-- The interpolation scanner: the non-greedy regexp replacement of
every `open expr close` span in a string.  Operationally: at each
opening marker pair, the enclosed expression runs to the nearest
closing marker pair; surrounding whitespace belongs to the markers
(outer `\s*`), so the captured expression is the trimmed text between.
A span with no enclosed character, or whose trimmed content spans a
newline (the lazy `.` group cannot cross one), does not match.
Fuel `length + 1` suffices: every step consumes a character. -/
def replMustache (ctx : RCtx) : Nat → List Char → String
  | 0, cs => String.mk cs
  | _ + 1, [] => ""
  | fuel + 1, '\x7b' :: '\x7b' :: rest =>
    (match splitClose rest with
     | some (between, after) =>
       let e := trimWs between
       if between.isEmpty || e.contains '\n' then
         "\x7b" ++ replMustache ctx fuel ('\x7b' :: rest)
       else
         placeholderString (evalInContext (String.mk e) ctx)
           ++ replMustache ctx fuel after
     | none => "\x7b" ++ replMustache ctx fuel ('\x7b' :: rest))
  | fuel + 1, c :: rest => String.mk [c] ++ replMustache ctx fuel rest

/-- Interpolate one string value (text content or attribute value). -/
def interpStr (ctx : RCtx) (s : String) : String :=
  replMustache ctx (s.length + 1) s.toList

/-- Attribute interpolation of `interpolate`: every non-empty attribute
value containing the opening marker is rewritten. -/
def interpAttrs (ctx : RCtx) : List (String × String) → List (String × String)
  | [] => []
  | (k, v) :: rest =>
    (k, if !v.isEmpty && containsOpen v.toList then interpStr ctx v else v)
      :: interpAttrs ctx rest

mutual
/-- The source's `interpolate`: rewrite placeholder spans in text nodes
and attribute values, recursing over the whole subtree (the node's own
attributes included). -/
def interpolateNode (ctx : RCtx) : Node → Node
  | .text i v => .text i (if containsOpen v.toList then interpStr ctx v else v)
  | .elem i t attrs v ls ch =>
    .elem i t (interpAttrs ctx attrs) v ls (interpolateList ctx ch)
/-- `interpolate` mapped over a child list. -/
def interpolateList (ctx : RCtx) : List Node → List Node
  | [] => []
  | c :: cs => interpolateNode ctx c :: interpolateList ctx cs
end

/-- Strip the conditional attribute from the element itself (the
`removeAttribute` step of a retained element). -/
def stripIfTop : Node → Node
  | .text i v => .text i v
  | .elem i t attrs v ls ch => .elem i t (alRemove attrs "o-if") v ls ch

mutual
/-- The conditional pass: `processIf` applied to every element matched
by a `querySelectorAll` over the strict descendants of the root
(`querySelectorAll` never matches the root itself).  A falsy condition
removes the element with its subtree; a truthy one strips the
attribute and its subtree is scanned further.  The render callback's
re-check branch performs the identical per-element step (its
`parentNode` test always holds for attached nodes and its `try` wrapper
is unreachable because `evalInContext` already catches), so the same
function models both call sites. -/
def ifPassNode (ctx : RCtx) : Node → Node
  | .text i v => .text i v
  | .elem i t attrs v ls ch => .elem i t attrs v ls (ifPassList ctx ch)
/-- Conditional pass over a child list. -/
def ifPassList (ctx : RCtx) : List Node → List Node
  | [] => []
  | c :: cs =>
    match getAttr "o-if" c with
    | some cond =>
      if jsTruthy (evalInContext cond ctx) then
        stripIfTop (ifPassNode ctx c) :: ifPassList ctx cs
      else
        ifPassList ctx cs
    | none => ifPassNode ctx c :: ifPassList ctx cs
end

/-- The per-element step of `bindModel` on attrs/value/listeners: read
the bound path, assign the displayed value and attach the input
listener for form controls (`INPUT`/`TEXTAREA`/`SELECT`), and strip the
attribute in every case. -/
def bindModelParts (ctx : RCtx) (tag : String)
    (attrs : List (String × String)) (val : String) (ls : List Listener) :
    List (String × String) × String × List Listener :=
  match alGet attrs "o-model" with
  | none => (attrs, val, ls)
  | some m =>
    let cur := evalInContext m ctx
    let isFormTag := tag = "INPUT" || tag = "TEXTAREA" || tag = "SELECT"
    let val' := if isFormTag then (if looseNull cur then "" else jsString cur) else val
    let ls' := if isFormTag then ls ++ [.input m] else ls
    (alRemove attrs "o-model", val', ls')

/-- `bindModel` applied to one element (attributes, displayed value
and listeners of the node itself; children untouched). -/
def bindModelTop (ctx : RCtx) : Node → Node
  | .text i v => .text i v
  | .elem i t attrs v ls ch =>
    match bindModelParts ctx t attrs v ls with
    | (attrs', v', ls') => .elem i t attrs' v' ls' ch

mutual
/-- The two-way binding pass: `bindModel` applied to every strict
descendant carrying the attribute (`querySelectorAll` semantics, root
excluded).  Both the first pass and the render callback's re-sync call
this same source function. -/
def modelPassNode (ctx : RCtx) : Node → Node
  | .text i v => .text i v
  | .elem i t attrs v ls ch => .elem i t attrs v ls (modelPassList ctx ch)
/-- Two-way binding pass over a child list. -/
def modelPassList (ctx : RCtx) : List Node → List Node
  | [] => []
  | c :: cs => bindModelTop ctx (modelPassNode ctx c) :: modelPassList ctx cs
end

/-- The per-element step of `bindClick`: attach the click listener and
strip the attribute. -/
def bindClickParts (attrs : List (String × String)) (ls : List Listener) :
    List (String × String) × List Listener :=
  match alGet attrs "o-click" with
  | none => (attrs, ls)
  | some e => (alRemove attrs "o-click", ls ++ [.click e])

/-- `bindClick` applied to one element (attributes and listeners of
the node itself; children untouched). -/
def bindClickTop : Node → Node
  | .text i v => .text i v
  | .elem i t attrs v ls ch =>
    match bindClickParts attrs ls with
    | (attrs', ls') => .elem i t attrs' v ls' ch

mutual
/-- The click binding pass: `bindClick` applied to every strict
descendant carrying the attribute. -/
def clickPassNode : Node → Node
  | .text i v => .text i v
  | .elem i t attrs v ls ch => .elem i t attrs v ls (clickPassList ch)
/-- Click binding pass over a child list. -/
def clickPassList : List Node → List Node
  | [] => []
  | c :: cs => bindClickTop (clickPassNode c) :: clickPassList cs
end

/-- The repeat grammar `ident in expression` (the anchored regexp of
`processFor`, no multiline or dotall flags): leading whitespace, a
maximal word-character identifier, whitespace, the literal `in`,
whitespace, then the greedy capture of the list expression.  The
capture's dot cannot cross a newline while the surrounding whitespace
classes can, so after the `in` separator the tail matches exactly when
the text between its leading and trailing whitespace is
newline-free — the capture is that text plus the newline-free prefix
of the trailing whitespace.  A tail that is pure whitespace can still
match by backtracking: the separator yields its last character that is
not a newline to the capture.  `none` models the no-match case, where
`processFor` leaves the element untouched. -/
def matchFor (s : String) : Option (String × String) :=
  let cs := s.toList.dropWhile isWsChar
  let nm := cs.takeWhile isRegexWordChar
  if nm.isEmpty then none
  else
    let r1 := (cs.dropWhile isRegexWordChar)
    if (r1.takeWhile isWsChar).isEmpty then none
    else
      match r1.dropWhile isWsChar with
      | 'i' :: 'n' :: r3 =>
        if (r3.takeWhile isWsChar).isEmpty then none
        else
          let upToLast := rtrimWs r3
          let wend := r3.drop upToLast.length
          if upToLast.isEmpty then
            match (r3.drop 1).reverse.find? (fun c => c != '\n') with
            | some c => some (String.mk nm, String.mk [c])
            | none => none
          else
            let core := upToLast.dropWhile isWsChar
            if core.contains '\n' then none
            else
              some (String.mk nm,
                String.mk (core ++ wend.takeWhile (fun c => c != '\n')))
      | _ => none

mutual
/-- `cloneNode(true)`: copy tag, attributes and children.  Event
listeners are never copied by `cloneNode`; the `value` property of the
copy reflects its `value` attribute (the dirty value is not cloned).
Fresh ids model the fresh object identity of the copies. -/
def cloneFresh : Nat → Node → Node × Nat
  | nid, .text _ v => (.text nid v, nid + 1)
  | nid, .elem _ t attrs _ _ ch =>
    let (ch', nid') := cloneFreshList (nid + 1) ch
    (.elem nid t attrs ((alGet attrs "value").getD "") [] ch', nid')
/-- Clone a child list with fresh ids. -/
def cloneFreshList : Nat → List Node → List Node × Nat
  | nid, [] => ([], nid)
  | nid, c :: cs =>
    let (c', nid1) := cloneFresh nid c
    let (cs', nid2) := cloneFreshList nid1 cs
    (c' :: cs', nid2)
end

/-- Parameter list of the `new Function(itemName, 'state', 'data', …)`
calls used while expanding a repeat clone. -/
def itemParams (nm : String) (item : Value) : List (String × PVal) :=
  [(nm, .pval item), ("state", .refState), ("data", .refData)]

/-- Replacement used by the item-substitution scanners: evaluate
`itemName ++ rest` with the item in scope; `undefined` and every
failure substitute the empty string (the replacer's own catch). -/
def itemEvalRepl (nm : String) (item : Value) (ctx : RCtx) (rest : String) : String :=
  match evalRawString (nm ++ rest) ⟨ctx.props, ctx.globals, itemParams nm item⟩ with
  | .ok .undef => ""
  | .ok v => jsString v
  | .error _ => ""

/-- Text-node substitution, first regexp of `processFor`: every
`open markers, optional whitespace, itemName, a non-empty lazy rest,
optional whitespace, close markers` span is replaced by evaluating
`itemName ++ rest` with the item in scope.  The lazy rest runs to the
nearest closing marker pair, minus the trailing whitespace it yields
to the following whitespace class; when everything up to the closing
markers is whitespace the lazy group still captures the first of those
characters (so a bare spaced placeholder is handled here, by
evaluating the bare name in scope, and never reaches the second
regexp).  The capture cannot contain a newline. -/
def subTextA (nm : String) (item : Value) (ctx : RCtx) : Nat → List Char → String
  | 0, cs => String.mk cs
  | _ + 1, [] => ""
  | fuel + 1, '\x7b' :: '\x7b' :: rest =>
    (let afterWs := rest.dropWhile isWsChar
     if String.mk (afterWs.take nm.length) = nm then
       let afterName := afterWs.drop nm.length
       match splitClose afterName with
       | some (between, after) =>
         let trimmed := rtrimWs between
         let captured := if trimmed.isEmpty then between.take 1 else trimmed
         if captured.isEmpty || captured.contains '\n' then
           "\x7b" ++ subTextA nm item ctx fuel ('\x7b' :: rest)
         else
           itemEvalRepl nm item ctx (String.mk captured)
             ++ subTextA nm item ctx fuel after
       | none => "\x7b" ++ subTextA nm item ctx fuel ('\x7b' :: rest)
     else "\x7b" ++ subTextA nm item ctx fuel ('\x7b' :: rest))
  | fuel + 1, c :: rest => String.mk [c] ++ subTextA nm item ctx fuel rest

/-- Text-node substitution, second regexp of `processFor`: every
bare `open markers, whitespace, itemName, whitespace, close markers`
span is replaced by `String(item)` directly. -/
def subTextB (nm : String) (item : Value) : Nat → List Char → String
  | 0, cs => String.mk cs
  | _ + 1, [] => ""
  | fuel + 1, '\x7b' :: '\x7b' :: rest =>
    (let afterWs := rest.dropWhile isWsChar
     if String.mk (afterWs.take nm.length) = nm then
       match (afterWs.drop nm.length).dropWhile isWsChar with
       | '\x7d' :: '\x7d' :: after => jsString item ++ subTextB nm item fuel after
       | _ => "\x7b" ++ subTextB nm item fuel ('\x7b' :: rest)
     else "\x7b" ++ subTextB nm item fuel ('\x7b' :: rest))
  | fuel + 1, c :: rest => String.mk [c] ++ subTextB nm item fuel rest

/-- Attribute substitution, first regexp of `processFor`: every
occurrence of `itemName` followed by one further character (the lazy
group with no continuation captures exactly one non-newline character)
is replaced by evaluating `itemName ++ capturedChar`. -/
def subAttrC (nm : String) (item : Value) (ctx : RCtx) : Nat → List Char → String
  | 0, cs => String.mk cs
  | _ + 1, [] => ""
  | fuel + 1, c :: rest =>
    if String.mk ((c :: rest).take nm.length) = nm then
      match (c :: rest).drop nm.length with
      | r :: rest2 =>
        if r = '\n' then String.mk [c] ++ subAttrC nm item ctx fuel rest
        else itemEvalRepl nm item ctx (String.mk [r]) ++ subAttrC nm item ctx fuel rest2
      | [] => String.mk [c] ++ subAttrC nm item ctx fuel rest
    else String.mk [c] ++ subAttrC nm item ctx fuel rest

/-- Attribute substitution, second regexp of `processFor`: every
word-boundary-delimited occurrence of `itemName` is replaced by
`String(item)`.  `prev` is the character preceding the scan position in
the original string. -/
def subAttrD (nm : String) (item : Value) : Nat → Option Char → List Char → String
  | 0, _, cs => String.mk cs
  | _ + 1, _, [] => ""
  | fuel + 1, prev, c :: rest =>
    let cs := c :: rest
    let prevBoundary := match prev with
      | none => true
      | some p => !isRegexWordChar p
    let afterName := cs.drop nm.length
    let nextBoundary := match afterName with
      | [] => true
      | d :: _ => !isRegexWordChar d
    if String.mk (cs.take nm.length) = nm && prevBoundary && nextBoundary then
      jsString item
        ++ subAttrD nm item fuel (some (nm.toList.getLastD c)) afterName
    else
      String.mk [c] ++ subAttrD nm item fuel (some c) rest

/-- Substitute the item into one text value (first regexp, then the
second on its result, as the chained `replace` calls do). -/
def substTextStr (nm : String) (item : Value) (ctx : RCtx) (s : String) : String :=
  let s1 := subTextA nm item ctx (s.length + 1) s.toList
  subTextB nm item (s1.length + 1) s1.toList

/-- Substitute the item into one attribute value (guarded by the
`includes(itemName)` test; the two chained attribute regexps). -/
def substAttrStr (nm : String) (item : Value) (ctx : RCtx) (s : String) : String :=
  let s1 := subAttrC nm item ctx (s.length + 1) s.toList
  subAttrD nm item (s1.length + 1) none s1.toList

/-- Does a string contain `itemName` as a substring
(`attr.value.includes(itemName)`)? -/
def containsSub (nm : String) : Nat → List Char → Bool
  | 0, _ => false
  | _ + 1, [] => nm.isEmpty
  | fuel + 1, c :: rest =>
    String.mk ((c :: rest).take nm.length) = nm || containsSub nm fuel rest

/-- Attribute-list substitution for one element of a clone. -/
def substAttrs (nm : String) (item : Value) (ctx : RCtx) :
    List (String × String) → List (String × String)
  | [] => []
  | (k, v) :: rest =>
    (k, if !v.isEmpty && containsSub nm (v.length + 1) v.toList
        then substAttrStr nm item ctx v else v)
      :: substAttrs nm item ctx rest

/-- Item substitution applied to one node's own strings: a text
node's content, or an element's attribute values. -/
def substTop (nm : String) (item : Value) (ctx : RCtx) : Node → Node
  | .text i v => .text i (substTextStr nm item ctx v)
  | .elem i t attrs v ls ch => .elem i t (substAttrs nm item ctx attrs) v ls ch

mutual
/-- Item substitution over the descendants of a node. -/
def substDescNode (nm : String) (item : Value) (ctx : RCtx) : Node → Node
  | .text i v => .text i v
  | .elem i t attrs v ls ch => .elem i t attrs v ls (substList nm item ctx ch)
/-- Item substitution over the nodes visited by the `TreeWalker` of
`processFor`.  `TreeWalker.nextNode` never yields the walk root, so
this runs over the strict descendants of the clone only: the clone's
own attributes (its `o-for` among them) are left untouched. -/
def substList (nm : String) (item : Value) (ctx : RCtx) : List Node → List Node
  | [] => []
  | c :: cs =>
    substTop nm item ctx (substDescNode nm item ctx c) :: substList nm item ctx cs
end

/-- Item substitution applied to a whole clone (descendants only). -/
def substClone (nm : String) (item : Value) (ctx : RCtx) : Node → Node
  | .text i v => .text i v
  | .elem i t attrs v ls ch => .elem i t attrs v ls (substList nm item ctx ch)

/-- Failure modes of first-pass processing: `thrown` models a JS
exception escaping `processFor` (calling `forEach` on a truthy
non-array); `fuelOut` is the artificial recursion bound of the
embedding (no JS counterpart; every verified scenario is given enough
fuel). -/
inductive PErr where
  | thrown
  | fuelOut

/-- One iteration sequence of the `list.forEach` body of `processFor`:
clone the template, substitute the item into the clone's descendants,
append the clone to the parent, and recursively run the full
orchestrator (`pdRec`, one fuel level down) over the inserted clone.
Returns the processed clones in list order, the render handlers their
recursive processing registered, and the advanced id counter. -/
def expandItems
    (pdRec : RCtx → Nat → Node → Except PErr (Node × List Nat × Nat))
    (ctx : RCtx) (nm : String) (tmpl : Node) :
    List Value → Nat → Except PErr (List Node × List Nat × Nat)
  | [], nid => .ok ([], [], nid)
  | item :: items, nid => do
    let (clone, nid1) := cloneFresh nid tmpl
    let clone' := substClone nm item ctx clone
    let (cloneDone, hs1, nid2) ← pdRec ctx nid1 clone'
    let (clones, hs2, nid3) ← expandItems pdRec ctx nm tmpl items nid2
    .ok (cloneDone :: clones, hs1 ++ hs2, nid3)

/-- The body of `processFor` once the grammar has matched: evaluate the
list expression, defaulting every falsy result to the empty list; a
truthy non-array then has no `forEach` and the call throws
(`PErr.thrown`); an array drives the iteration. -/
def expandFor
    (pdRec : RCtx → Nat → Node → Except PErr (Node × List Nat × Nat))
    (ctx : RCtx) (nid : Nat) (nm le : String) (tmpl : Node) :
    Except PErr (List Node × List Nat × Nat) :=
  let lv := evalInContext le ctx
  let listv := if jsTruthy lv then lv else .list []
  match listv with
  | .list items => expandItems pdRec ctx nm tmpl items nid
  | _ => .error .thrown

mutual
/-- The repeat pass over one subtree: `processFor` applied to the
pre-expansion snapshot of `querySelectorAll` over the strict
descendants, in document order.  A template child whose grammar
matches is removed and its clones are appended at the end of the
parent's children (`appendChild`); a non-matching child stays in
place, its descendants still scanned.  Clones are never rescanned by
the snapshot; templates detached inside an already-expanded outer
template would be processed invisibly in JS and are skipped here. -/
def forGo (pdRec : RCtx → Nat → Node → Except PErr (Node × List Nat × Nat))
    (ctx : RCtx) (nid : Nat) : Node → Except PErr (Node × List Nat × Nat)
  | .text i v => .ok (.text i v, [], nid)
  | .elem i t attrs v ls ch => do
    let (kept, clones, hs, nid') ← forChildren pdRec ctx nid ch
    .ok (.elem i t attrs v ls (kept ++ clones), hs, nid')
/-- The repeat pass over a child list, separating children kept in
place from clones appended at the end. -/
def forChildren (pdRec : RCtx → Nat → Node → Except PErr (Node × List Nat × Nat))
    (ctx : RCtx) (nid : Nat) :
    List Node → Except PErr (List Node × List Node × List Nat × Nat)
  | [] => .ok ([], [], [], nid)
  | c :: cs =>
    match getAttr "o-for" c with
    | some s =>
      (match matchFor s with
       | some (nm, le) => do
         let (cl, hs1, nid1) ← expandFor pdRec ctx nid nm le c
         let (kept, clones, hs2, nid2) ← forChildren pdRec ctx nid1 cs
         .ok (kept, cl ++ clones, hs1 ++ hs2, nid2)
       | none => do
         let (c', hs1, nid1) ← forGo pdRec ctx nid c
         let (kept, clones, hs2, nid2) ← forChildren pdRec ctx nid1 cs
         .ok (c' :: kept, clones, hs1 ++ hs2, nid2))
    | none => do
      let (c', hs1, nid1) ← forGo pdRec ctx nid c
      let (kept, clones, hs2, nid2) ← forChildren pdRec ctx nid1 cs
      .ok (c' :: kept, clones, hs1 ++ hs2, nid2)
end

/-- The source's `processDirectives` over a root: the repeat pass
(whose clone recursion re-enters this function one fuel level down),
then the conditional pass, the two-way binding pass, the click pass
and interpolation, in that order, and finally the registration of this
root's render callback (modelled by appending the root's id to the
returned handler list, after the handlers pushed while expanding
clones). -/
def processDirectives : Nat → RCtx → Nat → Node → Except PErr (Node × List Nat × Nat)
  | 0, _, _, _ => .error .fuelOut
  | fuel + 1, ctx, nid, root => do
    let (r1, hs, nid1) ← forGo (processDirectives fuel) ctx nid root
    let r2 := ifPassNode ctx r1
    let r3 := modelPassNode ctx r2
    let r4 := clickPassNode r3
    let r5 := interpolateNode ctx r4
    .ok (r5, hs ++ [nodeId root], nid1)

/-- The whole running system: the state object's own fields (`data`
among them), the sloppy-mode globals created by evaluated assignments,
the document tree under the container, the registered render handlers
(ids of their captured roots, in registration order), the id
allocation counter, and a ghost counter of completed notification
rounds (pure instrumentation for stating notification-count
properties; nothing reads it). -/
structure Sys where
  props : List (String × Value)
  globals : List (String × Value)
  doc : Node
  handlers : List Nat
  nextId : Nat
  rounds : Nat

/-- The parameter list of the plain `evalInContext` call sites
(`new Function('state', 'data', …)`). -/
def stdParams : List (String × PVal) := [("state", .refState), ("data", .refData)]

/-- Evaluation context of render-time and read-time evaluation. -/
def mkEvalCtx (sys : Sys) : RCtx := ⟨sys.props, sys.globals, stdParams⟩

/-- One render callback body, captured root already located: re-run
interpolation, then the o-model re-sync query, then the o-if re-check
query, each with `querySelectorAll` semantics over the subtree. -/
def renderRoot (ctx : RCtx) (n : Node) : Node :=
  ifPassNode ctx (modelPassNode ctx (interpolateNode ctx n))

mutual
/-- Dispatch of one render callback: locate the captured root by
identity inside the document and apply the render body to it.  A root
no longer in the document is a detached subtree: the callback still
runs in JS but none of its mutations are observable, so the document
is returned unchanged. -/
def renderById (ctx : RCtx) (hid : Nat) : Node → Node
  | .text i v => if i = hid then renderRoot ctx (.text i v) else .text i v
  | .elem i t attrs v ls ch =>
    if i = hid then renderRoot ctx (.elem i t attrs v ls ch)
    else .elem i t attrs v ls (renderByIdList ctx hid ch)
/-- Render dispatch over a child list. -/
def renderByIdList (ctx : RCtx) (hid : Nat) : List Node → List Node
  | [] => []
  | c :: cs => renderById ctx hid c :: renderByIdList ctx hid cs
end

/-- `handlers.forEach(h => h())`: run every registered render callback
in registration order over the document. -/
def runHandlers (ctx : RCtx) (hs : List Nat) (doc : Node) : Node :=
  hs.foldl (fun d h => renderById ctx h d) doc

/-- The store's `notify`: one synchronous notification round invoking
every subscriber in registration order with no arguments. -/
def notify (sys : Sys) : Sys :=
  { sys with
    rounds := sys.rounds + 1
    doc := runHandlers (mkEvalCtx sys) sys.handlers sys.doc }

/-- The proxy `set` trap: apply the write to the target (an unknown
field is simply added) and notify; the trap returns true, so no write
ever raises. -/
def storeSetProp (name : String) (v : Value) (sys : Sys) : Sys :=
  notify { sys with props := alSet sys.props name v }

/-- Flatten an assignment target into its base identifier and the
field path following it. -/
def pathOfExpr : Expr → Option (String × List String)
  | .evar s => some (s, [])
  | .field e n =>
    match pathOfExpr e with
    | some (b, p) => some (b, p ++ [n])
    | none => none
  | _ => none

/-- Set a value along a field path inside an object's field list.
An `undefined`/`null` intermediate is a TypeError; a primitive
intermediate swallows the write silently (sloppy mode); a missing
intermediate is a TypeError on the subsequent access. -/
def setIn (fs : List (String × Value)) : List String → Value → Except Unit (List (String × Value))
  | [], _ => .error ()
  | [k], v => .ok (alSet fs k v)
  | k :: k2 :: rest, v =>
    match alGet fs k with
    | some (.obj sub) => do
      let sub' ← setIn sub (k2 :: rest) v
      .ok (alSet fs k (.obj sub'))
    | some .undef => .error ()
    | some .vnull => .error ()
    | some _ => .ok fs
    | none => .error ()

/-- Replace the fields of the `data` object inside the state fields. -/
def setDataFields (props : List (String × Value)) (fs : List (String × Value)) :
    List (String × Value) :=
  alSet props "data" (.obj fs)

/-- Assignment through the `with(state) with(data)` scope chain: the
data object wins, then the state proxy (whose `set` trap notifies only
for a direct top-level write), then the function parameters (assigning
to a plain parameter rebinds it without store effect; the `state` and
`data` parameters alias the store), and otherwise the write creates a
sloppy-mode global. -/
def writeTargetPath (base : String) (path : List String) (v : Value)
    (params : List (String × PVal)) (sys : Sys) : Except Unit Sys :=
  if alHas (dataFields sys.props) base then
    do
      let fs' ← setIn (dataFields sys.props) (base :: path) v
      .ok { sys with props := setDataFields sys.props fs' }
  else if alHas sys.props base then
    match path with
    | [] => .ok (storeSetProp base v sys)
    | _ :: _ => do
      let props' ← setIn sys.props (base :: path) v
      .ok { sys with props := props' }
  else
    match alGet params base with
    | some .refState =>
      (match path with
       | [] => .ok sys
       | [k] => .ok (storeSetProp k v sys)
       | k :: k2 :: rest => do
         let props' ← setIn sys.props (k :: k2 :: rest) v
         .ok { sys with props := props' })
    | some .refData =>
      (match path with
       | [] => .ok sys
       | p => do
         let fs' ← setIn (dataFields sys.props) p v
         .ok { sys with props := setDataFields sys.props fs' })
    | some (.pval _) => .ok sys
    | none => .ok { sys with globals := alSet sys.globals base v }

/-- Evaluate one statement expression (a click handler body or a
model write-back): an assignment evaluates its right-hand side and
writes through the scope chain (possibly notifying mid-evaluation via
the proxy trap); any other expression is evaluated for its value,
which is discarded. -/
def evalStmtC (e : Expr) (params : List (String × PVal)) (sys : Sys) : Except Unit Sys :=
  match e with
  | .assign tgt rhs => do
    let v ← evalR rhs ⟨sys.props, sys.globals, params⟩
    match pathOfExpr tgt with
    | some (b, p) => writeTargetPath b p v params sys
    | none => .error ()
  | e => do
    let _ ← evalR e ⟨sys.props, sys.globals, params⟩
    .ok sys

/-- The body of the click listener closure attached by `bindClick`:
inside a `try`, build and run the handler function (event, state and
data in scope) and then notify; every failure — compilation or
execution — is caught and logged, and the trailing notify is then
skipped. -/
def runClickBody (expr : String) (sys : Sys) : Sys :=
  let params : List (String × PVal) :=
    [("event", .pval (.obj [])), ("state", .refState), ("data", .refData)]
  match parseExprString expr with
  | none => sys
  | some e =>
    match evalStmtC e params sys with
    | .ok sys1 => notify sys1
    | .error _ => sys

/-- Run the listeners of a node for a click event, in attachment
order. -/
def runClickListeners : List Listener → Sys → Sys
  | [], sys => sys
  | .click e :: rest, sys => runClickListeners rest (runClickBody e sys)
  | .input _ :: rest, sys => runClickListeners rest sys

mutual
/-- `getElementById`-like identity lookup inside the document. -/
def findById (hid : Nat) : Node → Option Node
  | .text i v => if i = hid then some (.text i v) else none
  | .elem i t attrs v ls ch =>
    if i = hid then some (.elem i t attrs v ls ch) else findByIdList hid ch
/-- Identity lookup over a child list. -/
def findByIdList (hid : Nat) : List Node → Option Node
  | [] => none
  | c :: cs =>
    match findById hid c with
    | some n => some n
    | none => findByIdList hid cs
end

/-- Dispatch a click event on the node with the given identity. -/
def fireClick (hid : Nat) (sys : Sys) : Sys :=
  match findById hid sys.doc with
  | some n => runClickListeners (nodeListeners n) sys
  | none => sys

/-- The body of the input listener closure attached by `bindModel`:
compile and run `path = val` with the control's current displayed
value, then notify.  Unlike the click handler there is no `try`: a
failing assignment throws out of the event listener (the dispatcher
swallows it) and the notify is skipped. -/
def runInputBody (modelExpr : String) (curVal : String) (sys : Sys) : Sys :=
  let params : List (String × PVal) :=
    [("state", .refState), ("data", .refData), ("val", .pval (.str curVal))]
  match parseExprString (modelExpr ++ " = val") with
  | none => sys
  | some e =>
    match evalStmtC e params sys with
    | .ok sys1 => notify sys1
    | .error _ => sys

/-- Run the input listeners of a node identity, re-reading the
displayed value before each listener body. -/
def runInputListeners (hid : Nat) : List Listener → Sys → Sys
  | [], sys => sys
  | .input m :: rest, sys =>
    (match findById hid sys.doc with
     | some n => runInputListeners hid rest (runInputBody m (nodeVal n) sys)
     | none => runInputListeners hid rest sys)
  | .click _ :: rest, sys => runInputListeners hid rest sys

/-- Dispatch an input event on the node with the given identity. -/
def fireInput (hid : Nat) (sys : Sys) : Sys :=
  match findById hid sys.doc with
  | some n => runInputListeners hid (nodeListeners n) sys
  | none => sys

/-- First-pass processing of a freshly inserted container subtree, as
`loadRoute` performs it: run the orchestrator and assemble the system
(no rounds have run; the handler list is exactly what processing
registered).  `none` models the `catch` branch of `loadRoute`
replacing the container with the not-found fallback. -/
def firstPass (fuel : Nat) (props : List (String × Value)) (nid : Nat)
    (container : Node) : Option Sys :=
  match processDirectives fuel ⟨props, [], stdParams⟩ nid container with
  | .ok (r, hs, nid') => some ⟨props, [], r, hs, nid', 0⟩
  | .error _ => none

/-- Iterated notification rounds. -/
def iterateNotify : Nat → Sys → Sys
  | 0, sys => sys
  | n + 1, sys => iterateNotify n (notify sys)

/-- The structural skeleton of a subtree: node identities, tags and
shape, with every string content (text, attribute values, control
values) and the listeners erased.  Two documents with equal skeletons
render the same elements in the same places. -/
inductive Skel where
  | t (id : Nat)
  | e (id : Nat) (tag : String) (ks : List Skel)

mutual
/-- Skeleton of a node. -/
def skelOf : Node → Skel
  | .text i _ => .t i
  | .elem i tag _ _ _ ch => .e i tag (skelOfList ch)
/-- Skeletons of a child list. -/
def skelOfList : List Node → List Skel
  | [] => []
  | c :: cs => skelOf c :: skelOfList cs
end

mutual
/-- Number of element nodes in a skeleton. -/
def skelCountE : Skel → Nat
  | .t _ => 0
  | .e _ _ ks => 1 + skelCountEList ks
/-- Number of element nodes in a skeleton list. -/
def skelCountEList : List Skel → Nat
  | [] => 0
  | k :: ks => skelCountE k + skelCountEList ks
end

/-- Number of element nodes in a subtree. -/
def countElems (n : Node) : Nat := skelCountE (skelOf n)

mutual
/-- Does neither the node nor any of its descendants carry the given
attribute? -/
def noAttrAll (a : String) : Node → Bool
  | .text _ _ => true
  | .elem _ _ attrs _ _ ch => !alHas attrs a && noAttrAllList a ch
/-- `noAttrAll` over a child list. -/
def noAttrAllList (a : String) : List Node → Bool
  | [] => true
  | c :: cs => noAttrAll a c && noAttrAllList a cs
end

/-- Do all strict descendants of the node lack the given attribute
(the region a `querySelectorAll` from this root can match)? -/
def noAttrDesc (a : String) : Node → Bool
  | .text _ _ => true
  | .elem _ _ _ _ _ ch => noAttrAllList a ch

mutual
/-- Number of nodes in the subtree (the node included) carrying the
given attribute. -/
def countAttrNodes (a : String) : Node → Nat
  | .text _ _ => 0
  | .elem _ _ attrs _ _ ch =>
    (if alHas attrs a then 1 else 0) + countAttrNodesList a ch
/-- `countAttrNodes` summed over a child list. -/
def countAttrNodesList (a : String) : List Node → Nat
  | [] => 0
  | c :: cs => countAttrNodes a c + countAttrNodesList a cs
end

mutual
/-- Are all node ids in the subtree strictly below the bound (the
well-formedness invariant relating a document to the id allocation
counter)? -/
def idsBelow (k : Nat) : Node → Bool
  | .text i _ => i < k
  | .elem i _ _ _ _ ch => i < k && idsBelowList k ch
/-- `idsBelow` over a child list. -/
def idsBelowList (k : Nat) : List Node → Bool
  | [] => true
  | c :: cs => idsBelow k c && idsBelowList k cs
end

/-- Displayed value of the node with the given identity (empty when
absent). -/
def valById (hid : Nat) (doc : Node) : String :=
  match findById hid doc with
  | some n => nodeVal n
  | none => ""

/-- Number of listeners attached to the node with the given identity. -/
def listenerCountById (hid : Nat) (doc : Node) : Nat :=
  match findById hid doc with
  | some n => (nodeListeners n).length
  | none => 0

/-- Is the node with the given identity present in the document? -/
def presentById (hid : Nat) (doc : Node) : Bool :=
  (findById hid doc).isSome

/-- Fallback system for scenario extraction (never reached in the
verified scenarios). -/
def defaultSys : Sys := ⟨[], [], .text 0 "", [], 0, 0⟩

/-- Claim C1 scenario, store fields: a boolean `flag`, initially true. -/
def propsC1 : List (String × Value) := [("data", .obj []), ("flag", .bool true)]

/-- Claim C1 scenario, container: a span guarded by the conditional
directive on `flag`. -/
def docC1 : Node :=
  .elem 0 "DIV" [] "" [] [.elem 1 "SPAN" [("o-if", "flag")] "" [] [.text 2 "hi"]]

/-- Claim C1 scenario, system after first-pass processing. -/
def sysC1 : Sys := (firstPass 3 propsC1 3 docC1).getD defaultSys

/-- Claim C2 scenario, store fields: a string `msg`, initially "a". -/
def propsC2 : List (String × Value) := [("data", .obj []), ("msg", .str "a")]

/-- Claim C2 scenario, container: an input two-way bound to `msg`. -/
def docC2 : Node :=
  .elem 0 "DIV" [] "" [] [.elem 1 "INPUT" [("o-model", "msg")] "" [] []]

/-- Claim C2 scenario, system after first-pass processing. -/
def sysC2 : Sys := (firstPass 3 propsC2 2 docC2).getD defaultSys

/-- Claim C3 scenario, store fields: a number `n`. -/
def propsC3 : List (String × Value) := [("data", .obj []), ("n", .num 1)]

/-- Claim C3 scenario, container: a button whose click expression
writes the top-level store field `n`. -/
def docC3 : Node :=
  .elem 0 "DIV" [] "" [] [.elem 1 "BUTTON" [("o-click", "n = 7")] "" [] []]

/-- Claim C3 scenario, system after first-pass processing. -/
def sysC3 : Sys := (firstPass 3 propsC3 2 docC3).getD defaultSys

/-- Claim C3 amended-claim scenario, store fields: a number `n`. -/
def propsC3b : List (String × Value) := [("data", .obj []), ("n", .num 1)]

/-- Claim C3 amended-claim scenario, container: a button whose click
expression writes the top-level store field `n` with a computed
right-hand side. -/
def docC3b : Node :=
  .elem 0 "DIV" [] "" [] [.elem 1 "BUTTON" [("o-click", "n = n + 1")] "" [] []]

/-- Claim C3 amended-claim scenario, system after first-pass
processing. -/
def sysC3b : Sys := (firstPass 3 propsC3b 2 docC3b).getD defaultSys

/-- Claim C4 counterexample context: the repeat list expression `n`
evaluates to the number 5, a truthy non-list. -/
def ctxC4 : RCtx := ⟨[("data", .obj [("n", .num 5)])], [], stdParams⟩

/-- Claim C4 counterexample container: a repeat template over `n`. -/
def docC4 : Node :=
  .elem 0 "DIV" [] "" [] [.elem 1 "SPAN" [("o-for", "item in n")] "" [] []]

/-- Claim C5 counterexample context: `xs` is the one-element list 7. -/
def ctxC5 : RCtx := ⟨[("data", .obj [("xs", .list [.num 7])])], [], stdParams⟩

/-- Claim C5 counterexample container: a list with a repeat template. -/
def docC5 : Node :=
  .elem 0 "DIV" [] "" []
    [.elem 1 "UL" [] "" [] [.elem 2 "LI" [("o-for", "item in xs")] "" [] []]]

/-- Claim C5 counterexample: the processed tree. -/
def resC5 : Node :=
  match processDirectives 4 ctxC5 3 docC5 with
  | .ok (r, _, _) => r
  | .error _ => .text 99 ""

/-- Claim C8 witness scenario, store fields: a two-element list. -/
def propsC8 : List (String × Value) :=
  [("data", .obj [("items", .list [.num 1, .num 2])])]

/-- Claim C8 witness scenario, container: a list with a repeat
template carrying interpolated text. -/
def docC8 : Node :=
  .elem 0 "DIV" [] "" []
    [.elem 1 "UL" [] "" []
      [.elem 2 "LI" [("o-for", "item in items")] "" []
        [.text 3 "\x7b\x7b item \x7d\x7d"]]]

/-- Claim C8 witness scenario, system after first-pass processing. -/
def sysC8 : Sys := (firstPass 4 propsC8 4 docC8).getD defaultSys

/-- Context with an empty data payload (claim C9 scenarios). -/
def ctxEmptyData : RCtx := ⟨[("data", .obj [])], [], stdParams⟩

/-- Context whose data payload holds defined falsy values (claim C10
scenarios): `x` is null, `b` is false, `z` is zero. -/
def ctxC10 : RCtx :=
  ⟨[("data", .obj [("x", .vnull), ("b", .bool false), ("z", .num 0)])], [], stdParams⟩

/-- Specification of an orchestrator-shaped function used for the
fuel induction of the handler-count theorem: the id counter never
decreases, and every handler the call registers is either the render
callback for the given root itself or belongs to a clone allocated at
or above the entry counter. -/
def PdInv (pd : RCtx → Nat → Node → Except PErr (Node × List Nat × Nat)) : Prop :=
  ∀ ctx nid root r hs nid', pd ctx nid root = .ok (r, hs, nid') →
    nid ≤ nid' ∧ ∀ h ∈ hs, h = nodeId root ∨ nid ≤ h

mutual
/-- Mutual induction over nodes, node component. -/
theorem Node.indN (P : Node → Prop) (Q : List Node → Prop)
    (ht : ∀ i v, P (.text i v))
    (he : ∀ i t attrs v ls ch, Q ch → P (.elem i t attrs v ls ch))
    (hnil : Q [])
    (hcons : ∀ c cs, P c → Q cs → Q (c :: cs)) : ∀ n, P n
  | .text i v => ht i v
  | .elem i t attrs v ls ch => he i t attrs v ls ch (Node.indL P Q ht he hnil hcons ch)
/-- Mutual induction over nodes, list component. -/
theorem Node.indL (P : Node → Prop) (Q : List Node → Prop)
    (ht : ∀ i v, P (.text i v))
    (he : ∀ i t attrs v ls ch, Q ch → P (.elem i t attrs v ls ch))
    (hnil : Q [])
    (hcons : ∀ c cs, P c → Q cs → Q (c :: cs)) : ∀ l, Q l
  | [] => hnil
  | c :: cs => hcons c cs (Node.indN P Q ht he hnil hcons c)
      (Node.indL P Q ht he hnil hcons cs)
end

/-- Looking up the key just written returns the written value: every
store write is immediately observable, whether the field existed or
not. -/
theorem alGet_alSet_self {α : Type} (l : List (String × α)) (k : String) (v : α) :
    alGet (alSet l k v) k = some v := by
  induction l with
  | nil => simp [alSet, alGet]
  | cons p rest ih =>
    by_cases h : p.1 = k
    · simp [alSet, h, alGet]
    · simp [alSet, h, alGet, ih]

/-- A key present after removal of another key was present before. -/
theorem alHas_alRemove_le {α : Type} (l : List (String × α)) (k a : String) :
    alHas (alRemove l k) a = true → alHas l a = true := by
  induction l with
  | nil => simp [alRemove]
  | cons p rest ih =>
    by_cases hk : p.1 = k
    · by_cases ha : p.1 = a
      · intro h
        simp [alHas, alGet, ha]
      · simp [alRemove, hk]
        intro h
        have := ih h
        simpa [alHas, alGet, ha] using this
    · by_cases ha : p.1 = a
      · intro _; simp [alHas, alGet, ha]
      · simp [alRemove, hk, alHas, alGet, ha] at *
        exact ih

/-- Removal of a key makes it absent. -/
theorem alHas_alRemove_self {α : Type} (l : List (String × α)) (k : String) :
    alHas (alRemove l k) k = false := by
  induction l with
  | nil => simp [alRemove, alHas, alGet]
  | cons p rest ih =>
    by_cases hk : p.1 = k
    · simpa [alRemove, hk] using ih
    · simpa [alRemove, hk, alHas, alGet, hk] using ih

/-- Attribute interpolation rewrites values only: key presence is
unchanged. -/
theorem alHas_interpAttrs (ctx : RCtx) (attrs : List (String × String)) (a : String) :
    alHas (interpAttrs ctx attrs) a = alHas attrs a := by
  induction attrs with
  | nil => simp [interpAttrs]
  | cons p rest ih =>
    by_cases h : p.1 = a
    · simp [interpAttrs, alHas, alGet, h]
    · simpa [interpAttrs, alHas, alGet, h] using ih

/-- Attribute interpolation preserves lookup presence as an option
shape: the looked-up key is found afterwards iff found before. -/
theorem alGet_interpAttrs_none (ctx : RCtx) (attrs : List (String × String)) (a : String) :
    alGet attrs a = none → alGet (interpAttrs ctx attrs) a = none := by
  induction attrs with
  | nil => simp [interpAttrs]
  | cons p rest ih =>
    by_cases h : p.1 = a
    · simp [interpAttrs, alGet, h]
    · simpa [interpAttrs, alGet, h] using ih

/-- Interpolation rewrites strings only: the skeleton of a child list
is unchanged. -/
theorem interp_skelL (ctx : RCtx) :
    ∀ l, skelOfList (interpolateList ctx l) = skelOfList l :=
  Node.indL (fun n => skelOf (interpolateNode ctx n) = skelOf n)
    (fun l => skelOfList (interpolateList ctx l) = skelOfList l)
    (fun i v => by simp [interpolateNode, skelOf])
    (fun i t attrs v ls ch ih => by simp [interpolateNode, skelOf, ih])
    (by simp [interpolateList, skelOfList])
    (fun c cs ihc ihcs => by simp [interpolateList, skelOfList, ihc, ihcs])

/-- Interpolation rewrites strings only: the skeleton of a subtree is
unchanged. -/
theorem interp_skelN (ctx : RCtx) :
    ∀ n, skelOf (interpolateNode ctx n) = skelOf n := by
  intro n
  cases n with
  | text i v => simp [interpolateNode, skelOf]
  | elem i t attrs v ls ch => simp [interpolateNode, skelOf, interp_skelL ctx ch]

/-- Interpolation never adds or removes attributes: attribute absence
over a child list is unchanged. -/
theorem interp_noAttrL (ctx : RCtx) (a : String) :
    ∀ l, noAttrAllList a (interpolateList ctx l) = noAttrAllList a l :=
  Node.indL (fun n => noAttrAll a (interpolateNode ctx n) = noAttrAll a n)
    (fun l => noAttrAllList a (interpolateList ctx l) = noAttrAllList a l)
    (fun i v => by simp [interpolateNode, noAttrAll])
    (fun i t attrs v ls ch ih => by
      simp [interpolateNode, noAttrAll, ih, alHas_interpAttrs])
    (by simp [interpolateList, noAttrAllList])
    (fun c cs ihc ihcs => by simp [interpolateList, noAttrAllList, ihc, ihcs])

/-- Interpolation never adds or removes attributes: attribute absence
over a subtree is unchanged. -/
theorem interp_noAttrN (ctx : RCtx) (a : String) :
    ∀ n, noAttrAll a (interpolateNode ctx n) = noAttrAll a n := by
  intro n
  cases n with
  | text i v => simp [interpolateNode, noAttrAll]
  | elem i t attrs v ls ch =>
    simp [interpolateNode, noAttrAll, interp_noAttrL ctx a ch, alHas_interpAttrs]

/-- Interpolation preserves descendant attribute absence. -/
theorem interp_noAttrDesc (ctx : RCtx) (a : String) :
    ∀ n, noAttrDesc a (interpolateNode ctx n) = noAttrDesc a n := by
  intro n
  cases n with
  | text i v => simp [interpolateNode, noAttrDesc]
  | elem i t attrs v ls ch => simp [interpolateNode, noAttrDesc, interp_noAttrL ctx a ch]
/-- After the conditional pass, no processed element retains the
conditional attribute: every survivor had it stripped, every other
carrier was removed. -/
theorem ifPass_noIfL (ctx : RCtx) :
    ∀ l, noAttrAllList "o-if" (ifPassList ctx l) = true :=
  Node.indL (fun n => noAttrAllList "o-if" (ifPassList ctx (nodeChildren n)) = true)
    (fun l => noAttrAllList "o-if" (ifPassList ctx l) = true)
    (fun i v => by simp [nodeChildren, ifPassList, noAttrAllList])
    (fun i t attrs v ls ch ih => by simpa [nodeChildren] using ih)
    (by simp [ifPassList, noAttrAllList])
    (fun c cs ihc ihcs => by
      cases c with
      | text i v =>
        simp [ifPassList, getAttr, ifPassNode, noAttrAllList, noAttrAll, ihcs]
      | elem i t attrs v ls cch =>
        simp only [nodeChildren] at ihc
        cases hat : alGet attrs "o-if" with
        | none =>
          have hhas : alHas attrs "o-if" = false := by simp [alHas, hat]
          simp [ifPassList, getAttr, hat, ifPassNode, noAttrAllList, noAttrAll,
            hhas, ihc, ihcs]
        | some cond =>
          by_cases hc : jsTruthy (evalInContext cond ctx)
          · have hrem := alHas_alRemove_self attrs "o-if"
            simp [ifPassList, getAttr, hat, hc, stripIfTop, ifPassNode,
              noAttrAllList, noAttrAll, hrem, ihc, ihcs]
          · simp [ifPassList, getAttr, hat, hc, ihcs])

/-- The conditional pass is the identity on a child list whose members
are free of the conditional attribute (re-processing stripped elements
is a no-op). -/
theorem ifPass_idL (ctx : RCtx) :
    ∀ l, noAttrAllList "o-if" l = true → ifPassList ctx l = l :=
  Node.indL (fun n => noAttrAll "o-if" n = true → ifPassNode ctx n = n)
    (fun l => noAttrAllList "o-if" l = true → ifPassList ctx l = l)
    (fun i v _ => by simp [ifPassNode])
    (fun i t attrs v ls ch ih h => by
      simp only [noAttrAll, Bool.and_eq_true] at h
      simp [ifPassNode, ih h.2])
    (fun _ => by simp [ifPassList])
    (fun c cs ihc ihcs h => by
      simp only [noAttrAllList, Bool.and_eq_true] at h
      have hget : getAttr "o-if" c = none := by
        cases c with
        | text i v => simp [getAttr]
        | elem i t attrs v ls cch =>
          have h1 := h.1
          simp only [noAttrAll, Bool.and_eq_true] at h1
          have h2 := h1.1
          simp only [alHas, Bool.not_eq_true'] at h2
          simp only [getAttr]
          exact Option.not_isSome_iff_eq_none.mp (by simp [h2])
      simp [ifPassList, hget, ihc h.1, ihcs h.2])

/-- The conditional pass is the identity on a node whose strict
descendants are free of the conditional attribute. -/
theorem ifPass_idN (ctx : RCtx) (n : Node) (h : noAttrDesc "o-if" n = true) :
    ifPassNode ctx n = n := by
  cases n with
  | text i v => simp [ifPassNode]
  | elem i t attrs v ls ch =>
    simp only [noAttrDesc] at h
    simp [ifPassNode, ifPass_idL ctx ch h]

/-- After the two-way binding pass, no processed element retains the
binding attribute. -/
theorem modelPass_noModelL (ctx : RCtx) :
    ∀ l, noAttrAllList "o-model" (modelPassList ctx l) = true :=
  Node.indL (fun n => noAttrAllList "o-model" (modelPassList ctx (nodeChildren n)) = true)
    (fun l => noAttrAllList "o-model" (modelPassList ctx l) = true)
    (fun i v => by simp [nodeChildren, modelPassList, noAttrAllList])
    (fun i t attrs v ls ch ih => by simpa [nodeChildren] using ih)
    (by simp [modelPassList, noAttrAllList])
    (fun c cs ihc ihcs => by
      cases c with
      | text i v =>
        simp [modelPassList, modelPassNode, bindModelTop, noAttrAllList, noAttrAll,
          ihcs]
      | elem i t attrs v ls cch =>
        simp only [nodeChildren] at ihc
        cases hat : alGet attrs "o-model" with
        | none =>
          have hhas : alHas attrs "o-model" = false := by simp [alHas, hat]
          simp [modelPassList, modelPassNode, bindModelTop, bindModelParts, hat,
            noAttrAllList, noAttrAll, hhas, ihc, ihcs]
        | some m =>
          have hrem := alHas_alRemove_self attrs "o-model"
          simp [modelPassList, modelPassNode, bindModelTop, bindModelParts, hat,
            noAttrAllList, noAttrAll, hrem, ihc, ihcs])

/-- The two-way binding pass only ever removes its own attribute:
absence of any attribute is preserved over a child list. -/
theorem modelPass_presL (ctx : RCtx) (a : String) :
    ∀ l, noAttrAllList a l = true → noAttrAllList a (modelPassList ctx l) = true :=
  Node.indL
    (fun n => noAttrAllList a (nodeChildren n) = true →
      noAttrAllList a (modelPassList ctx (nodeChildren n)) = true)
    (fun l => noAttrAllList a l = true → noAttrAllList a (modelPassList ctx l) = true)
    (fun i v _ => by simp [nodeChildren, modelPassList, noAttrAllList])
    (fun i t attrs v ls ch ih h => by simpa [nodeChildren] using ih (by simpa using h))
    (fun _ => by simp [modelPassList, noAttrAllList])
    (fun c cs ihc ihcs h => by
      simp only [noAttrAllList, Bool.and_eq_true] at h
      cases c with
      | text i v =>
        simp [modelPassList, modelPassNode, bindModelTop, noAttrAllList, noAttrAll,
          ihcs h.2]
      | elem i t attrs v ls cch =>
        have h1 := h.1
        simp only [noAttrAll, Bool.and_eq_true] at h1
        have hch := ihc (by simpa [nodeChildren] using h1.2)
        simp only [nodeChildren] at hch
        cases hat : alGet attrs "o-model" with
        | none =>
          simp [modelPassList, modelPassNode, bindModelTop, bindModelParts, hat,
            noAttrAllList, noAttrAll, h1.1, hch, ihcs h.2]
        | some m =>
          have hnr : alHas (alRemove attrs "o-model") a = false := by
            cases hr : alHas (alRemove attrs "o-model") a with
            | false => rfl
            | true =>
              have := alHas_alRemove_le attrs "o-model" a hr
              simp [this] at h1
          simp [modelPassList, modelPassNode, bindModelTop, bindModelParts, hat,
            noAttrAllList, noAttrAll, hnr, hch, ihcs h.2])

/-- The two-way binding pass is the identity on a child list whose
members are free of the binding attribute (re-processing stripped
elements is a no-op). -/
theorem modelPass_idL (ctx : RCtx) :
    ∀ l, noAttrAllList "o-model" l = true → modelPassList ctx l = l :=
  Node.indL
    (fun n => noAttrAll "o-model" n = true → modelPassNode ctx n = n)
    (fun l => noAttrAllList "o-model" l = true → modelPassList ctx l = l)
    (fun i v _ => by simp [modelPassNode])
    (fun i t attrs v ls ch ih h => by
      simp only [noAttrAll, Bool.and_eq_true] at h
      simp [modelPassNode, ih h.2])
    (fun _ => by simp [modelPassList])
    (fun c cs ihc ihcs h => by
      simp only [noAttrAllList, Bool.and_eq_true] at h
      have hid := ihc h.1
      have htop : bindModelTop ctx c = c := by
        cases c with
        | text i v => simp [bindModelTop]
        | elem i t attrs v ls cch =>
          have h1 := h.1
          simp only [noAttrAll, Bool.and_eq_true] at h1
          have h2 := h1.1
          simp only [alHas, Bool.not_eq_true'] at h2
          have hget : alGet attrs "o-model" = none :=
            Option.not_isSome_iff_eq_none.mp (by simp [h2])
          simp [bindModelTop, bindModelParts, hget]
      simp [modelPassList, hid, htop, ihcs h.2])

/-- The two-way binding pass is the identity on a node whose strict
descendants are free of the binding attribute. -/
theorem modelPass_idN (ctx : RCtx) (n : Node) (h : noAttrDesc "o-model" n = true) :
    modelPassNode ctx n = n := by
  cases n with
  | text i v => simp [modelPassNode]
  | elem i t attrs v ls ch =>
    simp only [noAttrDesc] at h
    simp [modelPassNode, modelPass_idL ctx ch h]

/-- After the click pass, no processed element retains the click
attribute. -/
theorem clickPass_noClickL :
    ∀ l, noAttrAllList "o-click" (clickPassList l) = true :=
  Node.indL (fun n => noAttrAllList "o-click" (clickPassList (nodeChildren n)) = true)
    (fun l => noAttrAllList "o-click" (clickPassList l) = true)
    (fun i v => by simp [nodeChildren, clickPassList, noAttrAllList])
    (fun i t attrs v ls ch ih => by simpa [nodeChildren] using ih)
    (by simp [clickPassList, noAttrAllList])
    (fun c cs ihc ihcs => by
      cases c with
      | text i v =>
        simp [clickPassList, clickPassNode, bindClickTop, noAttrAllList, noAttrAll,
          ihcs]
      | elem i t attrs v ls cch =>
        simp only [nodeChildren] at ihc
        cases hat : alGet attrs "o-click" with
        | none =>
          have hhas : alHas attrs "o-click" = false := by simp [alHas, hat]
          simp [clickPassList, clickPassNode, bindClickTop, bindClickParts, hat,
            noAttrAllList, noAttrAll, hhas, ihc, ihcs]
        | some e =>
          have hrem := alHas_alRemove_self attrs "o-click"
          simp [clickPassList, clickPassNode, bindClickTop, bindClickParts, hat,
            noAttrAllList, noAttrAll, hrem, ihc, ihcs])

/-- The click pass only ever removes its own attribute: absence of any
attribute is preserved over a child list. -/
theorem clickPass_presL (a : String) :
    ∀ l, noAttrAllList a l = true → noAttrAllList a (clickPassList l) = true :=
  Node.indL
    (fun n => noAttrAllList a (nodeChildren n) = true →
      noAttrAllList a (clickPassList (nodeChildren n)) = true)
    (fun l => noAttrAllList a l = true → noAttrAllList a (clickPassList l) = true)
    (fun i v _ => by simp [nodeChildren, clickPassList, noAttrAllList])
    (fun i t attrs v ls ch ih h => by simpa [nodeChildren] using ih (by simpa using h))
    (fun _ => by simp [clickPassList, noAttrAllList])
    (fun c cs ihc ihcs h => by
      simp only [noAttrAllList, Bool.and_eq_true] at h
      cases c with
      | text i v =>
        simp [clickPassList, clickPassNode, bindClickTop, noAttrAllList, noAttrAll,
          ihcs h.2]
      | elem i t attrs v ls cch =>
        have h1 := h.1
        simp only [noAttrAll, Bool.and_eq_true] at h1
        have hch := ihc (by simpa [nodeChildren] using h1.2)
        simp only [nodeChildren] at hch
        cases hat : alGet attrs "o-click" with
        | none =>
          simp [clickPassList, clickPassNode, bindClickTop, bindClickParts, hat,
            noAttrAllList, noAttrAll, h1.1, hch, ihcs h.2]
        | some e =>
          have hnr : alHas (alRemove attrs "o-click") a = false := by
            cases hr : alHas (alRemove attrs "o-click") a with
            | false => rfl
            | true =>
              have := alHas_alRemove_le attrs "o-click" a hr
              simp [this] at h1
          simp [clickPassList, clickPassNode, bindClickTop, bindClickParts, hat,
            noAttrAllList, noAttrAll, hnr, hch, ihcs h.2])



/-- The two-way binding pass preserves descendant attribute absence. -/
theorem modelPass_presDesc (ctx : RCtx) (a : String) (n : Node)
    (h : noAttrDesc a n = true) : noAttrDesc a (modelPassNode ctx n) = true := by
  cases n with
  | text i v => simp [modelPassNode, noAttrDesc]
  | elem i t attrs v ls ch =>
    simp only [noAttrDesc] at h ⊢
    simp [modelPassNode, modelPass_presL ctx a ch h]

/-- The click pass preserves descendant attribute absence. -/
theorem clickPass_presDesc (a : String) (n : Node)
    (h : noAttrDesc a n = true) : noAttrDesc a (clickPassNode n) = true := by
  cases n with
  | text i v => simp [clickPassNode, noAttrDesc]
  | elem i t attrs v ls ch =>
    simp only [noAttrDesc] at h ⊢
    simp [clickPassNode, clickPass_presL a ch h]

/-- On a subtree whose strict descendants carry neither the
conditional nor the binding attribute, the render callback body
degenerates to interpolation alone: the o-model re-sync and the o-if
re-check queries match nothing. -/
theorem renderRoot_eq_interp (ctx : RCtx) (n : Node)
    (hif : noAttrDesc "o-if" n = true) (hm : noAttrDesc "o-model" n = true) :
    renderRoot ctx n = interpolateNode ctx n := by
  unfold renderRoot
  have hm' : noAttrDesc "o-model" (interpolateNode ctx n) = true := by
    rw [interp_noAttrDesc]; exact hm
  have hif' : noAttrDesc "o-if" (interpolateNode ctx n) = true := by
    rw [interp_noAttrDesc]; exact hif
  rw [modelPass_idN ctx _ hm']
  exact ifPass_idN ctx _ hif'

/-- On a clean subtree (strict descendants free of the conditional and
binding attributes), the render body preserves the skeleton and the
cleanliness. -/
theorem renderRoot_skel (ctx : RCtx) (n : Node)
    (hif : noAttrDesc "o-if" n = true) (hm : noAttrDesc "o-model" n = true) :
    skelOf (renderRoot ctx n) = skelOf n ∧
    noAttrDesc "o-if" (renderRoot ctx n) = true ∧
    noAttrDesc "o-model" (renderRoot ctx n) = true := by
  rw [renderRoot_eq_interp ctx n hif hm]
  refine ⟨interp_skelN ctx n, ?_, ?_⟩
  · rw [interp_noAttrDesc]; exact hif
  · rw [interp_noAttrDesc]; exact hm

/-- Render dispatch over a child list of fully clean nodes preserves
skeletons and cleanliness. -/
theorem renderById_cleanL (ctx : RCtx) (hid : Nat) :
    ∀ l, noAttrAllList "o-if" l = true → noAttrAllList "o-model" l = true →
      skelOfList (renderByIdList ctx hid l) = skelOfList l ∧
      noAttrAllList "o-if" (renderByIdList ctx hid l) = true ∧
      noAttrAllList "o-model" (renderByIdList ctx hid l) = true :=
  Node.indL
    (fun n => noAttrAll "o-if" n = true → noAttrAll "o-model" n = true →
      skelOf (renderById ctx hid n) = skelOf n ∧
      noAttrAll "o-if" (renderById ctx hid n) = true ∧
      noAttrAll "o-model" (renderById ctx hid n) = true)
    (fun l => noAttrAllList "o-if" l = true → noAttrAllList "o-model" l = true →
      skelOfList (renderByIdList ctx hid l) = skelOfList l ∧
      noAttrAllList "o-if" (renderByIdList ctx hid l) = true ∧
      noAttrAllList "o-model" (renderByIdList ctx hid l) = true)
    (fun i v _ _ => by
      by_cases h : i = hid
      · simp [renderById, h, renderRoot, interpolateNode, modelPassNode, ifPassNode,
          skelOf, noAttrAll]
      · simp [renderById, h, skelOf, noAttrAll])
    (fun i t attrs v ls ch ih hif hm => by
      simp only [noAttrAll, Bool.and_eq_true] at hif hm
      by_cases h : i = hid
      · subst h
        have hifd : noAttrDesc "o-if" (Node.elem i t attrs v ls ch) = true := by
          simp [noAttrDesc, hif.2]
        have hmd : noAttrDesc "o-model" (Node.elem i t attrs v ls ch) = true := by
          simp [noAttrDesc, hm.2]
        have hr := renderRoot_skel ctx (Node.elem i t attrs v ls ch) hifd hmd
        have hrn : noAttrAll "o-if" (renderRoot ctx (Node.elem i t attrs v ls ch)) = true := by
          rw [renderRoot_eq_interp ctx _ hifd hmd, interp_noAttrN]
          simp [noAttrAll, hif.1, hif.2]
        have hrm : noAttrAll "o-model" (renderRoot ctx (Node.elem i t attrs v ls ch)) = true := by
          rw [renderRoot_eq_interp ctx _ hifd hmd, interp_noAttrN]
          simp [noAttrAll, hm.1, hm.2]
        simp only [renderById, if_pos rfl]
        exact ⟨hr.1, hrn, hrm⟩
      · have := ih hif.2 hm.2
        simp [renderById, h, skelOf, noAttrAll, hif.1, hm.1, this.1, this.2.1, this.2.2])
    (fun _ _ => by simp [renderByIdList, skelOfList, noAttrAllList])
    (fun c cs ihc ihcs hif hm => by
      simp only [noAttrAllList, Bool.and_eq_true] at hif hm
      have h1 := ihc hif.1 hm.1
      have h2 := ihcs hif.2 hm.2
      simp [renderByIdList, skelOfList, noAttrAllList, h1.1, h1.2.1, h1.2.2,
        h2.1, h2.2.1, h2.2.2])

/-- Render dispatch on a document whose strict descendants are free of
the conditional and binding attributes preserves the skeleton and that
freedom (the container's own attributes are never queried). -/
theorem renderById_top (ctx : RCtx) (hid : Nat) (doc : Node)
    (hif : noAttrDesc "o-if" doc = true) (hm : noAttrDesc "o-model" doc = true) :
    skelOf (renderById ctx hid doc) = skelOf doc ∧
    noAttrDesc "o-if" (renderById ctx hid doc) = true ∧
    noAttrDesc "o-model" (renderById ctx hid doc) = true := by
  cases doc with
  | text i v =>
    by_cases h : i = hid
    · simp [renderById, h, renderRoot, interpolateNode, modelPassNode, ifPassNode,
        skelOf, noAttrDesc]
    · simp [renderById, h, skelOf, noAttrDesc]
  | elem i t attrs v ls ch =>
    simp only [noAttrDesc] at hif hm
    by_cases h : i = hid
    · subst h
      have hifd : noAttrDesc "o-if" (Node.elem i t attrs v ls ch) = true := by
        simp [noAttrDesc, hif]
      have hmd : noAttrDesc "o-model" (Node.elem i t attrs v ls ch) = true := by
        simp [noAttrDesc, hm]
      have hr := renderRoot_skel ctx (Node.elem i t attrs v ls ch) hifd hmd
      simp only [renderById, if_pos rfl]
      exact ⟨hr.1, hr.2.1, hr.2.2⟩
    · have := renderById_cleanL ctx hid ch hif hm
      simp [renderById, h, skelOf, noAttrDesc, this.1, this.2.1, this.2.2]

/-- Running any handler list on a clean document preserves the
skeleton and the cleanliness. -/
theorem runHandlers_skel (ctx : RCtx) :
    ∀ (hs : List Nat) (doc : Node),
      noAttrDesc "o-if" doc = true → noAttrDesc "o-model" doc = true →
      skelOf (runHandlers ctx hs doc) = skelOf doc ∧
      noAttrDesc "o-if" (runHandlers ctx hs doc) = true ∧
      noAttrDesc "o-model" (runHandlers ctx hs doc) = true := by
  intro hs
  induction hs with
  | nil => intro doc hif hm; exact ⟨rfl, hif, hm⟩
  | cons h t ih =>
    intro doc hif hm
    have h1 := renderById_top ctx h doc hif hm
    have h2 := ih (renderById ctx h doc) h1.2.1 h1.2.2
    refine ⟨?_, ?_, ?_⟩
    · calc skelOf (runHandlers ctx (h :: t) doc)
          = skelOf (runHandlers ctx t (renderById ctx h doc)) := by
            simp [runHandlers]
        _ = skelOf (renderById ctx h doc) := h2.1
        _ = skelOf doc := h1.1
    · simpa [runHandlers] using h2.2.1
    · simpa [runHandlers] using h2.2.2

/-- A notification round touches only the document and the round
counter. -/
theorem notify_parts (sys : Sys) :
    (notify sys).props = sys.props ∧ (notify sys).globals = sys.globals ∧
    (notify sys).handlers = sys.handlers ∧ (notify sys).nextId = sys.nextId ∧
    (notify sys).rounds = sys.rounds + 1 := by
  simp [notify]

/-- A notification round on a clean document preserves its skeleton
and the cleanliness. -/
theorem notify_skel (sys : Sys)
    (hif : noAttrDesc "o-if" sys.doc = true) (hm : noAttrDesc "o-model" sys.doc = true) :
    skelOf (notify sys).doc = skelOf sys.doc ∧
    noAttrDesc "o-if" (notify sys).doc = true ∧
    noAttrDesc "o-model" (notify sys).doc = true := by
  simpa [notify] using runHandlers_skel (mkEvalCtx sys) sys.handlers sys.doc hif hm

/-- A store write on a clean document preserves its skeleton and the
cleanliness, and increments the round counter. -/
theorem storeSetProp_skel (name : String) (v : Value) (sys : Sys)
    (hif : noAttrDesc "o-if" sys.doc = true) (hm : noAttrDesc "o-model" sys.doc = true) :
    skelOf (storeSetProp name v sys).doc = skelOf sys.doc ∧
    noAttrDesc "o-if" (storeSetProp name v sys).doc = true ∧
    noAttrDesc "o-model" (storeSetProp name v sys).doc = true := by
  unfold storeSetProp
  exact notify_skel { sys with props := alSet sys.props name v } hif hm

/-- Iterated notification rounds on a clean document preserve its
skeleton and the cleanliness. -/
theorem iterateNotify_skel :
    ∀ (k : Nat) (sys : Sys),
      noAttrDesc "o-if" sys.doc = true → noAttrDesc "o-model" sys.doc = true →
      skelOf (iterateNotify k sys).doc = skelOf sys.doc ∧
      noAttrDesc "o-if" (iterateNotify k sys).doc = true ∧
      noAttrDesc "o-model" (iterateNotify k sys).doc = true := by
  intro k
  induction k with
  | zero => intro sys hif hm; exact ⟨rfl, hif, hm⟩
  | succ k ih =>
    intro sys hif hm
    have h1 := notify_skel sys hif hm
    have h2 := ih (notify sys) h1.2.1 h1.2.2
    refine ⟨?_, ?_, ?_⟩
    · calc skelOf (iterateNotify (k + 1) sys).doc
          = skelOf (iterateNotify k (notify sys)).doc := by simp [iterateNotify]
        _ = skelOf (notify sys).doc := h2.1
        _ = skelOf sys.doc := h1.1
    · simpa [iterateNotify] using h2.2.1
    · simpa [iterateNotify] using h2.2.2

/-- The conditional pass leaves no conditional attribute on any strict
descendant. -/
theorem ifPass_noIfDesc (ctx : RCtx) (n : Node) :
    noAttrDesc "o-if" (ifPassNode ctx n) = true := by
  cases n with
  | text i v => simp [ifPassNode, noAttrDesc]
  | elem i t attrs v ls ch => simp [ifPassNode, noAttrDesc, ifPass_noIfL ctx ch]

/-- The binding pass leaves no binding attribute on any strict
descendant. -/
theorem modelPass_noModelDesc (ctx : RCtx) (n : Node) :
    noAttrDesc "o-model" (modelPassNode ctx n) = true := by
  cases n with
  | text i v => simp [modelPassNode, noAttrDesc]
  | elem i t attrs v ls ch => simp [modelPassNode, noAttrDesc, modelPass_noModelL ctx ch]

/-- The click pass leaves no click attribute on any strict
descendant. -/
theorem clickPass_noClickDesc (n : Node) :
    noAttrDesc "o-click" (clickPassNode n) = true := by
  cases n with
  | text i v => simp [clickPassNode, noAttrDesc]
  | elem i t attrs v ls ch => simp [clickPassNode, noAttrDesc, clickPass_noClickL ch]

/-- After first-pass processing succeeds, no strict descendant of the
processed root carries the conditional, binding or click attribute:
the conditional pass strips or removes every carrier (the clones
appended by repeat expansion included, since the conditional query
runs after expansion), the binding and click passes strip theirs, and
interpolation never touches attribute names. -/
theorem pd_strips (fuel : Nat) (ctx : RCtx) (nid : Nat) (root r : Node)
    (hs : List Nat) (nid' : Nat)
    (h : processDirectives (fuel + 1) ctx nid root = .ok (r, hs, nid')) :
    noAttrDesc "o-if" r = true ∧ noAttrDesc "o-model" r = true ∧
    noAttrDesc "o-click" r = true := by
  simp only [processDirectives, bind, Except.bind] at h
  cases hfg : forGo (processDirectives fuel) ctx nid root with
  | error e => rw [hfg] at h; simp at h
  | ok tri =>
    rw [hfg] at h
    obtain ⟨r1, hs1, nid1⟩ := tri
    simp only [Except.ok.injEq, Prod.mk.injEq] at h
    obtain ⟨hr, -, -⟩ := h
    subst hr
    refine ⟨?_, ?_, ?_⟩
    · rw [interp_noAttrDesc]
      apply clickPass_presDesc
      apply modelPass_presDesc
      exact ifPass_noIfDesc ctx r1
    · rw [interp_noAttrDesc]
      apply clickPass_presDesc
      exact modelPass_noModelDesc ctx (ifPassNode ctx r1)
    · rw [interp_noAttrDesc]
      exact clickPass_noClickDesc _


/-- Id bounds are monotone in the bound, child-list version. -/
theorem idsBelow_monoL (k k' : Nat) (hk : k ≤ k') :
    ∀ l, idsBelowList k l = true → idsBelowList k' l = true :=
  Node.indL (fun n => idsBelow k n = true → idsBelow k' n = true)
    (fun l => idsBelowList k l = true → idsBelowList k' l = true)
    (fun i v h => by
      simp only [idsBelow, decide_eq_true_eq] at h ⊢
      omega)
    (fun i t attrs v ls ch ih h => by
      simp only [idsBelow, Bool.and_eq_true, decide_eq_true_eq] at h ⊢
      exact ⟨by omega, ih h.2⟩)
    (fun _ => by simp [idsBelowList])
    (fun c cs ihc ihcs h => by
      simp only [idsBelowList, Bool.and_eq_true] at h ⊢
      exact ⟨ihc h.1, ihcs h.2⟩)

/-- Id bounds are monotone in the bound. -/
theorem idsBelow_monoN (k k' : Nat) (hk : k ≤ k') (n : Node)
    (h : idsBelow k n = true) : idsBelow k' n = true := by
  cases n with
  | text i v =>
    simp only [idsBelow, decide_eq_true_eq] at h ⊢
    omega
  | elem i t attrs v ls ch =>
    simp only [idsBelow, Bool.and_eq_true, decide_eq_true_eq] at h ⊢
    exact ⟨by omega, idsBelow_monoL k k' hk ch h.2⟩

/-- The id of a node inside a bounded subtree is below the bound. -/
theorem nodeId_lt_of_idsBelow (k : Nat) (n : Node) (h : idsBelow k n = true) :
    nodeId n < k := by
  cases n with
  | text i v => simpa [idsBelow, nodeId] using h
  | elem i t attrs v ls ch =>
    simp only [idsBelow, Bool.and_eq_true, decide_eq_true_eq] at h
    simpa [nodeId] using h.1

/-- Cloning specification, node version: the clone's root takes the
entry counter as its id, the counter strictly advances, and every id
of the clone lies below the exit counter. -/
theorem cloneFresh_spec :
    ∀ n, ∀ nid, nid < (cloneFresh nid n).2 ∧ nodeId (cloneFresh nid n).1 = nid ∧
      idsBelow (cloneFresh nid n).2 (cloneFresh nid n).1 = true :=
  Node.indN
    (fun n => ∀ nid, nid < (cloneFresh nid n).2 ∧ nodeId (cloneFresh nid n).1 = nid ∧
      idsBelow (cloneFresh nid n).2 (cloneFresh nid n).1 = true)
    (fun l => ∀ nid, nid ≤ (cloneFreshList nid l).2 ∧
      idsBelowList (cloneFreshList nid l).2 (cloneFreshList nid l).1 = true)
    (fun i v nid => by
      refine ⟨by simp [cloneFresh], by simp [cloneFresh, nodeId], ?_⟩
      simp [cloneFresh, idsBelow])
    (fun i t attrs v ls ch ih nid => by
      have h := ih (nid + 1)
      cases hcl : cloneFreshList (nid + 1) ch with
      | mk ch' nid2 =>
        rw [hcl] at h
        simp only [cloneFresh, hcl, nodeId, idsBelow, Bool.and_eq_true,
          decide_eq_true_eq]
        refine ⟨by omega, by simp, by omega, h.2⟩)
    (fun nid => by simp [cloneFreshList, idsBelowList])
    (fun c cs ihc ihcs nid => by
      have hc := ihc nid
      cases hc1 : cloneFresh nid c with
      | mk c' nid1 =>
        rw [hc1] at hc
        have hcs := ihcs nid1
        cases hcl : cloneFreshList nid1 cs with
        | mk cs' nid2 =>
          rw [hcl] at hcs
          simp only [cloneFreshList, hc1, hcl, idsBelowList, Bool.and_eq_true]
          exact ⟨by omega,
            idsBelow_monoN _ _ (by omega) _ hc.2.2, hcs.2⟩)

/-- Item substitution rewrites strings only: id bounds over a child
list are unchanged. -/
theorem subst_idsL (nm : String) (item : Value) (ctx : RCtx) :
    ∀ l, ∀ k, idsBelowList k (substList nm item ctx l) = idsBelowList k l :=
  Node.indL
    (fun n => ∀ k, idsBelowList k (substList nm item ctx (nodeChildren n)) =
      idsBelowList k (nodeChildren n))
    (fun l => ∀ k, idsBelowList k (substList nm item ctx l) = idsBelowList k l)
    (fun i v _ => by simp [nodeChildren, substList])
    (fun i t attrs v ls ch ih k => by simpa [nodeChildren] using ih k)
    (fun _ => by simp [substList])
    (fun c cs ihc ihcs k => by
      cases c with
      | text i v =>
        simp [substList, substTop, substDescNode, idsBelowList, idsBelow, ihcs k]
      | elem i t attrs v ls cch =>
        have hc := ihc k
        simp only [nodeChildren] at hc
        simp [substList, substTop, substDescNode, idsBelowList, idsBelow, hc, ihcs k])

/-- Item substitution preserves a clone's root id. -/
theorem substClone_nodeId (nm : String) (item : Value) (ctx : RCtx) (n : Node) :
    nodeId (substClone nm item ctx n) = nodeId n := by
  cases n <;> simp [substClone, nodeId]

/-- Item substitution preserves a clone's id bound. -/
theorem substClone_idsBelow (nm : String) (item : Value) (ctx : RCtx) (k : Nat) (n : Node) :
    idsBelow k (substClone nm item ctx n) = idsBelow k n := by
  cases n with
  | text i v => simp [substClone]
  | elem i t attrs v ls ch => simp [substClone, idsBelow, subst_idsL nm item ctx ch k]

/-- Handler specification of the repeat-iteration loop: every handler
registered while expanding the items belongs to a clone allocated at
or above the entry counter, and the counter never decreases. -/
theorem expandItems_spec
    (pdRec : RCtx → Nat → Node → Except PErr (Node × List Nat × Nat))
    (hinv : PdInv pdRec) (ctx : RCtx) (nm : String) (tmpl : Node) :
    ∀ (items : List Value) (nid : Nat) (cl : List Node) (hs : List Nat) (nid' : Nat),
      expandItems pdRec ctx nm tmpl items nid = .ok (cl, hs, nid') →
      nid ≤ nid' ∧ ∀ h ∈ hs, nid ≤ h := by
  intro items
  induction items with
  | nil =>
    intro nid cl hs nid' h
    simp only [expandItems, Except.ok.injEq, Prod.mk.injEq] at h
    obtain ⟨-, hhs, hnid⟩ := h
    subst hhs; subst hnid
    exact ⟨Nat.le_refl _, by simp⟩
  | cons item items ih =>
    intro nid cl hs nid' h
    cases hpd : pdRec ctx (cloneFresh nid tmpl).2
        (substClone nm item ctx (cloneFresh nid tmpl).1) with
    | error e => simp [expandItems, hpd, bind, Except.bind] at h
    | ok tri1 =>
      obtain ⟨cloneDone, hs1, nid2⟩ := tri1
      cases hrest : expandItems pdRec ctx nm tmpl items nid2 with
      | error e => simp [expandItems, hpd, hrest, bind, Except.bind] at h
      | ok tri2 =>
        obtain ⟨clones, hs2, nid3⟩ := tri2
        simp only [expandItems, hpd, hrest, bind, Except.bind, Except.ok.injEq,
          Prod.mk.injEq] at h
        obtain ⟨-, hhs, hnid⟩ := h
        subst hhs; subst hnid
        have hcf := cloneFresh_spec tmpl nid
        have h1 := hinv ctx (cloneFresh nid tmpl).2
          (substClone nm item ctx (cloneFresh nid tmpl).1) cloneDone hs1 nid2 hpd
        have h2 := ih nid2 clones hs2 nid3 hrest
        constructor
        · omega
        · intro hh hmem
          rcases List.mem_append.mp hmem with hmem1 | hmem2
          · rcases h1.2 hh hmem1 with heq | hge
            · rw [heq, substClone_nodeId, hcf.2.1]
            · omega
          · have := h2.2 hh hmem2
            omega

/-- Handler specification of the repeat pass: every handler registered
during expansion belongs to a clone allocated at or above the entry
counter (never to a pre-existing node), child-list version. -/
theorem forChildren_spec
    (pdRec : RCtx → Nat → Node → Except PErr (Node × List Nat × Nat))
    (hinv : PdInv pdRec) (ctx : RCtx) :
    ∀ l, ∀ nid kept clones hs nid',
      forChildren pdRec ctx nid l = .ok (kept, clones, hs, nid') →
      nid ≤ nid' ∧ ∀ h ∈ hs, nid ≤ h :=
  Node.indL
    (fun n => ∀ nid n' hs nid', forGo pdRec ctx nid n = .ok (n', hs, nid') →
      nid ≤ nid' ∧ ∀ h ∈ hs, nid ≤ h)
    (fun l => ∀ nid kept clones hs nid',
      forChildren pdRec ctx nid l = .ok (kept, clones, hs, nid') →
      nid ≤ nid' ∧ ∀ h ∈ hs, nid ≤ h)
    (fun i v nid n' hs nid' h => by
      simp only [forGo, Except.ok.injEq, Prod.mk.injEq] at h
      obtain ⟨-, hhs, hnid⟩ := h
      subst hhs; subst hnid
      exact ⟨Nat.le_refl _, by simp⟩)
    (fun i t attrs v ls ch ih nid n' hs nid' h => by
      cases hfc : forChildren pdRec ctx nid ch with
      | error e => simp [forGo, hfc, bind, Except.bind] at h
      | ok quad =>
        obtain ⟨kept, clones, hs1, nid1⟩ := quad
        simp only [forGo, hfc, bind, Except.bind, Except.ok.injEq, Prod.mk.injEq] at h
        obtain ⟨-, hhs, hnid⟩ := h
        subst hhs; subst hnid
        exact ih nid kept clones hs1 nid1 hfc)
    (fun nid kept clones hs nid' h => by
      simp only [forChildren, Except.ok.injEq, Prod.mk.injEq] at h
      obtain ⟨-, -, hhs, hnid⟩ := h
      subst hhs; subst hnid
      exact ⟨Nat.le_refl _, by simp⟩)
    (fun c cs ihc ihcs nid kept clones hs nid' h => by
      cases hat : getAttr "o-for" c with
      | some s =>
        cases hmf : matchFor s with
        | some pr =>
          obtain ⟨nm, le⟩ := pr
          cases hlv : (if jsTruthy (evalInContext le ctx) then evalInContext le ctx
              else Value.list []) with
          | list items =>
            cases hei : expandItems pdRec ctx nm c items nid with
            | error e =>
              simp [forChildren, hat, hmf, expandFor, hlv, hei, bind, Except.bind] at h
            | ok tri1 =>
              obtain ⟨cl, hs1, nid1⟩ := tri1
              cases hfc : forChildren pdRec ctx nid1 cs with
              | error e =>
                simp [forChildren, hat, hmf, expandFor, hlv, hei, hfc, bind,
                  Except.bind] at h
              | ok quad =>
                obtain ⟨kept2, clones2, hs2, nid2⟩ := quad
                simp only [forChildren, hat, hmf, expandFor, hlv, hei, hfc, bind,
                  Except.bind, Except.ok.injEq, Prod.mk.injEq] at h
                obtain ⟨-, -, hhs, hnid⟩ := h
                subst hhs; subst hnid
                have h1 := expandItems_spec pdRec hinv ctx nm c items nid cl hs1 nid1 hei
                have h2 := ihcs nid1 kept2 clones2 hs2 nid2 hfc
                constructor
                · omega
                · intro hh hmem
                  rcases List.mem_append.mp hmem with m1 | m2
                  · exact h1.2 hh m1
                  · have := h2.2 hh m2
                    omega
          | undef =>
            simp [forChildren, hat, hmf, expandFor, hlv, bind, Except.bind] at h
          | vnull =>
            simp [forChildren, hat, hmf, expandFor, hlv, bind, Except.bind] at h
          | bool b =>
            simp [forChildren, hat, hmf, expandFor, hlv, bind, Except.bind] at h
          | num n2 =>
            simp [forChildren, hat, hmf, expandFor, hlv, bind, Except.bind] at h
          | str s2 =>
            simp [forChildren, hat, hmf, expandFor, hlv, bind, Except.bind] at h
          | obj fs =>
            simp [forChildren, hat, hmf, expandFor, hlv, bind, Except.bind] at h
        | none =>
          cases hfg : forGo pdRec ctx nid c with
          | error e => simp [forChildren, hat, hmf, hfg, bind, Except.bind] at h
          | ok tri1 =>
            obtain ⟨c', hs1, nid1⟩ := tri1
            cases hfc : forChildren pdRec ctx nid1 cs with
            | error e =>
              simp [forChildren, hat, hmf, hfg, hfc, bind, Except.bind] at h
            | ok quad =>
              obtain ⟨kept2, clones2, hs2, nid2⟩ := quad
              simp only [forChildren, hat, hmf, hfg, hfc, bind, Except.bind,
                Except.ok.injEq, Prod.mk.injEq] at h
              obtain ⟨-, -, hhs, hnid⟩ := h
              subst hhs; subst hnid
              have h1 := ihc nid c' hs1 nid1 hfg
              have h2 := ihcs nid1 kept2 clones2 hs2 nid2 hfc
              constructor
              · omega
              · intro hh hmem
                rcases List.mem_append.mp hmem with m1 | m2
                · exact h1.2 hh m1
                · have := h2.2 hh m2
                  omega
      | none =>
        cases hfg : forGo pdRec ctx nid c with
        | error e => simp [forChildren, hat, hfg, bind, Except.bind] at h
        | ok tri1 =>
          obtain ⟨c', hs1, nid1⟩ := tri1
          cases hfc : forChildren pdRec ctx nid1 cs with
          | error e => simp [forChildren, hat, hfg, hfc, bind, Except.bind] at h
          | ok quad =>
            obtain ⟨kept2, clones2, hs2, nid2⟩ := quad
            simp only [forChildren, hat, hfg, hfc, bind, Except.bind,
              Except.ok.injEq, Prod.mk.injEq] at h
            obtain ⟨-, -, hhs, hnid⟩ := h
            subst hhs; subst hnid
            have h1 := ihc nid c' hs1 nid1 hfg
            have h2 := ihcs nid1 kept2 clones2 hs2 nid2 hfc
            constructor
            · omega
            · intro hh hmem
              rcases List.mem_append.mp hmem with m1 | m2
              · exact h1.2 hh m1
              · have := h2.2 hh m2
                omega)

/-- Handler specification of the repeat pass over a whole subtree. -/
theorem forGo_spec
    (pdRec : RCtx → Nat → Node → Except PErr (Node × List Nat × Nat))
    (hinv : PdInv pdRec) (ctx : RCtx) (n : Node) :
    ∀ nid n' hs nid', forGo pdRec ctx nid n = .ok (n', hs, nid') →
      nid ≤ nid' ∧ ∀ h ∈ hs, nid ≤ h := by
  intro nid n' hs nid' h
  cases n with
  | text i v =>
    simp only [forGo, Except.ok.injEq, Prod.mk.injEq] at h
    obtain ⟨-, hhs, hnid⟩ := h
    subst hhs; subst hnid
    exact ⟨Nat.le_refl _, by simp⟩
  | elem i t attrs v ls ch =>
    cases hfc : forChildren pdRec ctx nid ch with
    | error e => simp [forGo, hfc, bind, Except.bind] at h
    | ok quad =>
      obtain ⟨kept, clones, hs1, nid1⟩ := quad
      simp only [forGo, hfc, bind, Except.bind, Except.ok.injEq, Prod.mk.injEq] at h
      obtain ⟨-, hhs, hnid⟩ := h
      subst hhs; subst hnid
      exact forChildren_spec pdRec hinv ctx ch nid kept clones hs1 nid1 hfc

/-- The orchestrator satisfies the handler specification at every
fuel level. -/
theorem pd_inv : ∀ fuel, PdInv (processDirectives fuel) := by
  intro fuel
  induction fuel with
  | zero =>
    intro ctx nid root r hs nid' h
    simp [processDirectives] at h
  | succ fuel ih =>
    intro ctx nid root r hs nid' h
    cases hfg : forGo (processDirectives fuel) ctx nid root with
    | error e => simp [processDirectives, hfg, bind, Except.bind] at h
    | ok tri =>
      obtain ⟨r1, hs1, nid1⟩ := tri
      simp only [processDirectives, hfg, bind, Except.bind, Except.ok.injEq,
        Prod.mk.injEq] at h
      obtain ⟨-, hhs, hnid⟩ := h
      subst hhs; subst hnid
      have h1 := forGo_spec (processDirectives fuel) ih ctx root nid r1 hs1 nid1 hfg
      constructor
      · exact h1.1
      · intro hh hmem
        rcases List.mem_append.mp hmem with m1 | m2
        · exact Or.inr (h1.2 hh m1)
        · simp only [List.mem_singleton] at m2
          exact Or.inl m2

/-- C1: the spec claims a conditionally shown element whose condition
later turns falsy is detached on the next notification round.  In the
code, `processIf` strips the `o-if` attribute from every retained
element during the first pass, so the render callback's re-check query
(`querySelectorAll` over the attribute) can never match again: at the
concrete failing input — `flag` truthy at first processing, then
written falsy — the span is still present after the write's
notification round and after any further rounds, although its
condition now evaluates falsy.  This contradicts both the spec and the
code's own comments ("processes conditional directives when state
changes"; "re-evaluate condition; if false, remove node"). -/
theorem c1_if_recheck_dead :
    presentById 1 sysC1.doc = true ∧
    jsTruthy (evalInContext "flag"
      (mkEvalCtx (storeSetProp "flag" (Value.bool false) sysC1))) = false ∧
    (storeSetProp "flag" (Value.bool false) sysC1).rounds = 1 ∧
    presentById 1 (storeSetProp "flag" (Value.bool false) sysC1).doc = true ∧
    presentById 1 (iterateNotify 3 (storeSetProp "flag" (Value.bool false) sysC1)).doc
      = true := by
  exact ⟨rfl, rfl, rfl, rfl, rfl⟩

/-- C2: the spec claims a programmatic write to an `o-model`-bound path
followed by a notification round updates the input's displayed value.
In the code, `bindModel` strips the attribute on first processing, so
the render callback's re-sync query can never match again: at the
concrete failing input — `msg` written from "a" to "b" — the store
holds the new value and a round has run, but the input still displays
"a".  The listener count stays at one only because the re-sync is
unreachable.  This contradicts the code's own comment ("we will
re-apply o-model values to keep inputs in sync"). -/
theorem c2_model_resync_dead :
    valById 1 sysC2.doc = "a" ∧
    listenerCountById 1 sysC2.doc = 1 ∧
    alGet (storeSetProp "msg" (Value.str "b") sysC2).props "msg"
      = some (Value.str "b") ∧
    (storeSetProp "msg" (Value.str "b") sysC2).rounds = 1 ∧
    valById 1 (storeSetProp "msg" (Value.str "b") sysC2).doc = "a" ∧
    listenerCountById 1 (storeSetProp "msg" (Value.str "b") sysC2).doc = 1 := by
  exact ⟨rfl, rfl, rfl, rfl, rfl, rfl⟩

/-- C3 counterexample: clicking the button bound to `n = 7` (a write
of a top-level store field) causes two notification rounds, not one:
the proxy's set trap notifies during the expression's evaluation, and
the click handler notifies again afterwards.  The written value is
observable, but the round count refutes the claim as stated. -/
theorem c3_counterexample :
    (fireClick 1 sysC3).rounds = 2 ∧
    ¬ (fireClick 1 sysC3).rounds = 1 ∧
    alGet (fireClick 1 sysC3).props "n" = some (Value.num 7) := by
  exact ⟨rfl, by decide, rfl⟩

/-- C3 amended: for every element whose single click listener was
bound to an expression assigning to a top-level store field (a name
not shadowed by the data payload) a right-hand side whose evaluation
in the handler's scope succeeds with some value, one click causes
exactly two notification rounds — one from the proxy set trap during
evaluation, one from the handler's trailing notify — and the written
value is observable in the store immediately after the handler
returns; the subscriber list is unchanged. -/
theorem c3_click_two_rounds (sys : Sys) (hid : Nat) (nd : Node) (s : String)
    (name : String) (rhs : Expr) (v : Value)
    (hfind : findById hid sys.doc = some nd)
    (hls : nodeListeners nd = [Listener.click s])
    (hparse : parseExprString s = some (Expr.assign (Expr.evar name) rhs))
    (hrhs : evalR rhs (RCtx.mk sys.props sys.globals
      [("event", PVal.pval (Value.obj [])), ("state", PVal.refState),
        ("data", PVal.refData)]) = .ok v)
    (hdata : alHas (dataFields sys.props) name = false)
    (hprops : alHas sys.props name = true) :
    (fireClick hid sys).rounds = sys.rounds + 2 ∧
    alGet (fireClick hid sys).props name = some v ∧
    (fireClick hid sys).handlers = sys.handlers := by
  have hstep : fireClick hid sys = runClickBody s sys := by
    simp [fireClick, hfind, hls, runClickListeners]
  have hw : evalStmtC (Expr.assign (Expr.evar name) rhs)
      [("event", PVal.pval (Value.obj [])), ("state", PVal.refState),
        ("data", PVal.refData)] sys = .ok (storeSetProp name v sys) := by
    simp [evalStmtC, hrhs, pathOfExpr, writeTargetPath, hdata, hprops, bind,
      Except.bind]
  have hbody : runClickBody s sys = notify (storeSetProp name v sys) := by
    simp [runClickBody, hparse, hw]
  rw [hstep, hbody]
  refine ⟨?_, ?_, ?_⟩
  · simp [notify, storeSetProp]
  · simp [notify, storeSetProp, alGet_alSet_self]
  · simp [notify, storeSetProp]

/-- C3 witness: the amended claim at a concrete scenario with a
computed right-hand side — `n = n + 1` bound on the button, `n` a
top-level store field initially 1; the click writes 2 and runs two
rounds. -/
theorem c3_click_two_rounds_witness :
    (fireClick 1 sysC3b).rounds = sysC3b.rounds + 2 ∧
    alGet (fireClick 1 sysC3b).props "n" = some (Value.num 2) ∧
    (fireClick 1 sysC3b).handlers = sysC3b.handlers :=
  c3_click_two_rounds sysC3b 1
    (.elem 1 "BUTTON" [] "" [.click "n = n + 1"] []) "n = n + 1" "n"
    (Expr.add (Expr.evar "n") (Expr.lit (Value.num 1))) (Value.num 2)
    rfl rfl rfl rfl rfl rfl

/-- C4 counterexample: with the repeat list expression evaluating to
the number 5 — a truthy non-list — processing does not behave as if
the list were empty: `5 || []` keeps the number, `forEach` is not a
function, and the TypeError escapes `processFor` and aborts directive
processing (the route loader's catch then replaces the whole container
with the not-found fallback). -/
theorem c4_counterexample :
    processDirectives 3 ctxC4 2 docC4 = .error .thrown := rfl

/-- C4 amended: if the repeat list expression evaluates to a falsy
value, the expansion behaves as if the list were empty — the template
element is removed, zero clones are appended, no exception occurs, and
exactly the root's render callback is registered.  (A truthy non-list
value instead throws a TypeError that aborts processing, caught by the
route loader.) -/
theorem c4_falsy_empty (fuel nid : Nat) (ctx : RCtx)
    (rid : Nat) (rt : String) (rattrs : List (String × String)) (rv : String)
    (rls : List Listener) (tmpl : Node) (s nm le : String)
    (hat : getAttr "o-for" tmpl = some s)
    (hmf : matchFor s = some (nm, le))
    (hfalsy : jsTruthy (evalInContext le ctx) = false) :
    processDirectives (fuel + 1) ctx nid (.elem rid rt rattrs rv rls [tmpl]) =
      .ok (.elem rid rt (interpAttrs ctx rattrs) rv rls [], [rid], nid) := by
  simp [processDirectives, forGo, forChildren, hat, hmf, expandFor, hfalsy,
    expandItems, ifPassNode, ifPassList, modelPassNode, modelPassList,
    clickPassNode, clickPassList, interpolateNode, interpolateList, nodeId,
    bind, Except.bind]

/-- C4 witness: the amended claim at the concrete scenario — the list
expression names an absent field, so it evaluates to `undefined`. -/
theorem c4_falsy_empty_witness :
    processDirectives 3 (RCtx.mk [("data", Value.obj [])] [] stdParams) 2
      (Node.elem 0 "DIV" [] "" [] [Node.elem 1 "SPAN" [("o-for", "item in n")] "" [] []]) =
    .ok (Node.elem 0 "DIV" [] "" [] [], [0], 2) :=
  c4_falsy_empty 2 2 (RCtx.mk [("data", Value.obj [])] [] stdParams) 0 "DIV" [] ""
    [] (Node.elem 1 "SPAN" [("o-for", "item in n")] "" [] []) "item in n" "item" "n"
    rfl rfl rfl

/-- C5 counterexample: after first-pass processing of a repeat
directive over a one-element list, the appended clone is still present
in the document and still bears the `o-for` attribute with the
original directive value — `cloneNode` copies the template's
attributes and no pass ever strips the clone's own `o-for`
(`querySelectorAll` excludes the root of the recursive clone
processing, and the outer repeat snapshot predates the clone).
Re-running the repeat pass over the subtree would therefore find a
directive-bearing element and re-expand it. -/
theorem c5_counterexample :
    countAttrNodes "o-for" resC5 = 1 ∧
    (findById 3 resC5).map (getAttr "o-for") = some (some "item in xs") := by
  exact ⟨rfl, rfl⟩

/-- C5 amended: after first-pass processing completes, the `if`,
`model` and `click` directive attributes are stripped from every
element still present in the subtree, so re-running those passes finds
no directive-bearing elements; the `for` attribute however survives on
every clone appended by repeat expansion (and on any element whose
directive value did not match the repeat grammar). -/
theorem c5_strips_if_model_click (fuel : Nat) (ctx : RCtx) (nid : Nat)
    (root r : Node) (hs : List Nat) (nid' : Nat)
    (h : processDirectives (fuel + 1) ctx nid root = .ok (r, hs, nid')) :
    noAttrDesc "o-if" r = true ∧ noAttrDesc "o-model" r = true ∧
    noAttrDesc "o-click" r = true :=
  pd_strips fuel ctx nid root r hs nid' h

/-- C5 witness: the amended claim at the concrete repeat scenario. -/
theorem c5_strips_witness :
    noAttrDesc "o-if" resC5 = true ∧ noAttrDesc "o-model" resC5 = true ∧
    noAttrDesc "o-click" resC5 = true :=
  c5_strips_if_model_click 3 ctxC5 3 docC5 resC5 [3, 0] 4 rfl

/-- C6: every write of a value to a top-level store field through the
proxy applies the new value (a previously absent field is simply
added, without error — the function is total), then synchronously runs
one full notification round: the handler list is folded in
registration order, each subscriber invoked once with no arguments,
and the subscriber list itself is unchanged.  Writes are never batched
or deduplicated: a second write performs a second full round. -/
theorem c6_store_write_notifies (sys : Sys) (name : String) (v : Value)
    (name2 : String) (v2 : Value) :
    alGet (storeSetProp name v sys).props name = some v ∧
    (storeSetProp name v sys).rounds = sys.rounds + 1 ∧
    (storeSetProp name v sys).handlers = sys.handlers ∧
    (storeSetProp name v sys).doc =
      runHandlers (mkEvalCtx { sys with props := alSet sys.props name v })
        sys.handlers sys.doc ∧
    (∀ (ctx : RCtx) (h : Nat) (hs : List Nat) (d : Node),
      runHandlers ctx (h :: hs) d = runHandlers ctx hs (renderById ctx h d)) ∧
    (∀ (ctx : RCtx) (d : Node), runHandlers ctx [] d = d) ∧
    (storeSetProp name2 v2 (storeSetProp name v sys)).rounds = sys.rounds + 2 := by
  refine ⟨?_, ?_, ?_, ?_, ?_, ?_, ?_⟩
  · simp [storeSetProp, notify, alGet_alSet_self]
  · simp [storeSetProp, notify]
  · simp [storeSetProp, notify]
  · simp [storeSetProp, notify]
  · intro ctx h hs d
    simp [runHandlers]
  · intro ctx d
    simp [runHandlers]
  · simp [storeSetProp, notify]

/-- C7: first-pass processing of a root runs exactly the fixed
pipeline — repeat expansion, then conditional pruning, then two-way
binding, then click binding, then interpolation — and registers
exactly one render callback for that root, appended after the
callbacks registered for its expansion clones: under the
well-formedness assumption that the ids in the root's subtree lie
below the allocation counter, the returned handler list ends with the
root's id and contains it exactly once (every other entry belongs to a
freshly allocated clone). -/
theorem c7_pipeline_order_one_handler (fuel : Nat) (ctx : RCtx) (nid : Nat)
    (root r : Node) (hs : List Nat) (nid' : Nat)
    (hwf : idsBelow nid root = true)
    (h : processDirectives (fuel + 1) ctx nid root = .ok (r, hs, nid')) :
    (∃ r1 hs1,
      forGo (processDirectives fuel) ctx nid root = .ok (r1, hs1, nid') ∧
      r = interpolateNode ctx (clickPassNode (modelPassNode ctx (ifPassNode ctx r1))) ∧
      hs = hs1 ++ [nodeId root]) ∧
    hs.getLast? = some (nodeId root) ∧
    hs.count (nodeId root) = 1 := by
  cases hfg : forGo (processDirectives fuel) ctx nid root with
  | error e => simp [processDirectives, hfg, bind, Except.bind] at h
  | ok tri =>
    obtain ⟨r1, hs1, nid1⟩ := tri
    simp only [processDirectives, hfg, bind, Except.bind, Except.ok.injEq,
      Prod.mk.injEq] at h
    obtain ⟨hr, hhs, hnid⟩ := h
    subst hnid
    have hspec := forGo_spec (processDirectives fuel) (pd_inv fuel) ctx root nid
      r1 hs1 nid1 hfg
    have hroot : nodeId root < nid := nodeId_lt_of_idsBelow nid root hwf
    have hnotmem : nodeId root ∉ hs1 := by
      intro hmem
      have := hspec.2 (nodeId root) hmem
      omega
    refine ⟨⟨r1, hs1, rfl, hr.symm, hhs.symm⟩, ?_, ?_⟩
    · rw [← hhs]
      exact List.getLast?_concat hs1
    · rw [← hhs]
      rw [List.count_append]
      rw [List.count_eq_zero.mpr hnotmem]
      simp

/-- C7 witness: the claim at the concrete repeat scenario (a root
whose subtree ids 0, 1, 2 lie below the counter 3; processing appends
the clone's handler 3 and then the root's handler 0). -/
theorem c7_witness :
    (∃ r1 hs1,
      forGo (processDirectives 3) ctxC5 3 docC5 = .ok (r1, hs1, 4) ∧
      resC5 = interpolateNode ctxC5
        (clickPassNode (modelPassNode ctxC5 (ifPassNode ctxC5 r1))) ∧
      ([3, 0] : List Nat) = hs1 ++ [nodeId docC5]) ∧
    ([3, 0] : List Nat).getLast? = some (nodeId docC5) ∧
    ([3, 0] : List Nat).count (nodeId docC5) = 1 :=
  c7_pipeline_order_one_handler 3 ctxC5 3 docC5 resC5 [3, 0] 4 (by decide) rfl

/-- C8: repeat expansion never re-runs after first processing.  After
a successful first pass, every strict descendant of the processed root
is free of the conditional and binding attributes, so every later
render — triggered by a store write and by any number of further
notification rounds — reduces to interpolation, which preserves the
document's skeleton: the number of rendered elements (the expansion
clones in particular) never changes, whatever value is written to
whatever field (mutating the underlying list included). -/
theorem c8_repeat_never_reruns (fuel : Nat) (props : List (String × Value))
    (nid : Nat) (container : Node) (sys : Sys)
    (h : firstPass fuel props nid container = some sys) :
    ∀ (name : String) (v : Value) (k : Nat),
      skelOf (iterateNotify k (storeSetProp name v sys)).doc = skelOf sys.doc ∧
      countElems (iterateNotify k (storeSetProp name v sys)).doc
        = countElems sys.doc := by
  intro name v k
  cases fuel with
  | zero => simp [firstPass, processDirectives] at h
  | succ fuel =>
    simp only [firstPass] at h
    cases hpd : processDirectives (fuel + 1) ⟨props, [], stdParams⟩ nid container with
    | error e => rw [hpd] at h; simp at h
    | ok tri =>
      obtain ⟨r, hs, nid1⟩ := tri
      rw [hpd] at h
      simp only [Option.some.injEq] at h
      have hstr := pd_strips fuel ⟨props, [], stdParams⟩ nid container r hs nid1 hpd
      have hdoc : sys.doc = r := by rw [← h]
      have hif : noAttrDesc "o-if" sys.doc = true := by rw [hdoc]; exact hstr.1
      have hm : noAttrDesc "o-model" sys.doc = true := by rw [hdoc]; exact hstr.2.1
      have h1 := storeSetProp_skel name v sys hif hm
      have h2 := iterateNotify_skel k (storeSetProp name v sys) h1.2.1 h1.2.2
      have hskel : skelOf (iterateNotify k (storeSetProp name v sys)).doc
          = skelOf sys.doc := by rw [h2.1, h1.1]
      exact ⟨hskel, by simp [countElems, hskel]⟩

/-- C8 witness: the claim at the concrete scenario — a repeat over a
two-element list; replacing the data payload with a three-element list
and running two further rounds leaves the skeleton (and element count)
unchanged. -/
theorem c8_witness :
    firstPass 4 propsC8 4 docC8 = some sysC8 ∧
    skelOf (iterateNotify 2 (storeSetProp "data"
        (Value.obj [("items", Value.list [Value.num 1, Value.num 2, Value.num 3])])
        sysC8)).doc = skelOf sysC8.doc ∧
    countElems (iterateNotify 2 (storeSetProp "data"
        (Value.obj [("items", Value.list [Value.num 1, Value.num 2, Value.num 3])])
        sysC8)).doc = countElems sysC8.doc :=
  ⟨rfl,
    c8_repeat_never_reruns 4 propsC8 4 docC8 sysC8 rfl "data"
      (Value.obj [("items", Value.list [Value.num 1, Value.num 2, Value.num 3])]) 2⟩

/-- C9: every failing evaluation — tokenizer error, parse error or
runtime error — is caught by `evalInContext`, logged as a warning and
surfaced as `undefined`, never as an exception (the catching wrapper
is a total function); interpolation renders an expression evaluating
to `undefined` as the empty string, and the round trip of the literal
arithmetic placeholder yields the text "2" in any context. -/
theorem c9_eval_errors_caught :
    (∀ (s : String) (ctx : RCtx), evalRawString s ctx = .error () →
      evalInContext s ctx = Value.undef ∧
      evalWarnings s ctx = ["Expression error: " ++ s]) ∧
    (∀ (ctx : RCtx) (i : Nat),
      interpolateNode ctx (.text i "{{ 1 + 1 }}") = .text i "2") ∧
    interpolateNode ctxEmptyData (.text 0 "a{{ nosuch }}b")
      = .text 0 "ab" := by
  refine ⟨?_, ?_, ?_⟩
  · intro s ctx h
    exact ⟨by simp [evalInContext, h], by simp [evalWarnings, h]⟩
  · intro ctx i
    rfl
  · rfl

/-- C9 witness: the catching behaviour at the concrete syntax error
"1 +" in the empty-data context. -/
theorem c9_witness :
    evalInContext "1 +" ctxEmptyData = Value.undef ∧
    evalWarnings "1 +" ctxEmptyData = ["Expression error: " ++ "1 +"] :=
  c9_eval_errors_caught.1 "1 +" ctxEmptyData rfl

/-- C10: only a result strictly equal to `undefined` renders as the
empty string: the placeholder substitution of every other value is its
JavaScript string form, so an expression evaluating to `null` renders
as the literal text "null", `false` as "false" and `0` as "0". -/
theorem c10_null_renders_null :
    (∀ v : Value, ¬ v = Value.undef → placeholderString v = jsString v) ∧
    placeholderString Value.vnull = "null" ∧
    interpolateNode ctxC10 (.text 3 "{{ x }}") = .text 3 "null" ∧
    interpolateNode ctxC10 (.text 4 "{{ b }}") = .text 4 "false" ∧
    interpolateNode ctxC10 (.text 5 "{{ z }}") = .text 5 "0" := by
  refine ⟨?_, rfl, rfl, rfl, rfl⟩
  intro v hv
  cases v with
  | undef => exact absurd rfl hv
  | vnull => rfl
  | bool b => rfl
  | num n => rfl
  | str s => rfl
  | list xs => rfl
  | obj fs => rfl

/-- C10 witness: the non-empty rendering at the concrete value
`null`. -/
theorem c10_witness : placeholderString Value.vnull = jsString Value.vnull :=
  c10_null_renders_null.1 Value.vnull (by intro h; nomatch h)

end Ollyspa
